import Mathlib

/-
  Verification of the soccer_video_desc repository.

  Shallow embedding of the two core modules:
    - video_desc_from_yaml.py : the formatter (soccer_game_description and its
      helpers split_team_name, parse_timestamp, abbreviate_title, scoring_abbrev)
    - video_desc_to_yaml.py   : the parser (parse_team, parse_goal) together with
      the difflib.get_close_matches machinery it calls.

  Modelling conventions:
    - Python strings are `List Char` (abbreviated `Str`); all string literals in
      the development are ASCII, so Python's unicode whitespace classes collapse
      to the ASCII whitespace set modelled by `pyIsSpace`.
    - Python `date` objects only ever reach the formatter through `str(game.date)`,
      so `Game.date` is modelled directly as the ISO string.
    - Python values of type `str | int` (timestamps, players, minutes) are the
      inductive `SP`; integer fields that are nonnegative in every input
      (seconds, jersey numbers) are `Nat`.
    - Fallible Python code (KeyError, IndexError, ValueError, unpacking errors)
      is modelled with `Option` / `Except PyErr`.
    - Recursions that are not structural in the Python source (regex scanning,
      decimal printing, difflib's matching-block recursion) use an explicit fuel
      argument that is always called with a sufficient value; sufficiency is
      part of the proofs that need it.
-/

abbrev Str := List Char

/-- ASCII part of Python's whitespace set (space, tab, newline, vertical tab,
form feed, carriage return). -/
def pyIsSpace (c : Char) : Bool :=
  c == ' ' || c == '\t' || c == '\n' || c == '\r' ||
  c == Char.ofNat 11 || c == Char.ofNat 12

/-- The decimal digit character for a value below ten. -/
def digitChar (n : Nat) : Char := Char.ofNat (48 + n)

/-- Decimal printing with fuel (structural, so it evaluates by `decide`). -/
def natToStrF : Nat → Nat → Str
  | 0, _ => []
  | fuel + 1, n => if n < 10 then [digitChar n] else natToStrF fuel (n / 10) ++ [digitChar (n % 10)]

/-- Decimal representation of a natural number, as Python's str(). -/
def natToStr (n : Nat) : Str := natToStrF (n + 1) n

/-- Zero-padded two-digit field, as Python's %02d used by str(timedelta). -/
def pad2 (n : Nat) : Str := if n < 10 then '0' :: natToStr n else natToStr n

/-- Python `str | int` values. -/
inductive SP where
  | str : Str → SP
  | int : Nat → SP
deriving DecidableEq

/-- The Game dataclass (date modelled as its ISO string, see header comment). -/
structure Game where
  date : Str
  division : Str
  home_team : Str
  away_team : Str
  round : Option Str
  home_team_abbrev : Option Str
  away_team_abbrev : Option Str
deriving DecidableEq

/-- The Goal dataclass.  `scoring_player` is `Option SP` because the repository's
own tests construct goals with `scoring_player: null`; `minute` is `Option SP`
because the tests pass both integers and strings like "60+2". -/
structure Goal where
  timestamp : SP
  scoring_team : Str
  scoring_player : Option SP
  assist_player : Option SP
  minute : Option SP
deriving DecidableEq

/-- parse_timestamp (video_desc_from_yaml.py line 80): strings pass through;
an integer t becomes str(timedelta(seconds=t)), the hours field is discarded
and the leading '0' characters of the remaining "MM:SS" string are removed by
lstrip("0").  str(timedelta) renders minutes and seconds as two zero-padded
digit fields, with minutes = (t / 60) % 60 and seconds = t % 60. -/
def parse_timestamp : SP → Str
  | .str s => s
  | .int t => List.dropWhile (fun c => c == '0') (pad2 (t / 60 % 60) ++ ':' :: pad2 (t % 60))

/-- scoring_abbrev (video_desc_from_yaml.py line 58). -/
def scoring_abbrev : List (Str × Str) :=
  [("PK".toList, "penalty kick".toList),
   ("FK".toList, "free kick".toList),
   ("OG".toList, "own goal".toList),
   ("CK".toList, "corner kick".toList)]

/-- The key set of scoring_abbrev (Python `scoring_abbrev.keys()`). -/
def abbrevKeys : List Str := scoring_abbrev.map Prod.fst

/-- Python dict lookup on the association list; `none` models KeyError. -/
def alookup : Str → List (Str × Str) → Option Str
  | _, [] => none
  | k, (k0, v0) :: rest => if k = k0 then some v0 else alookup k rest

/-- Python str.upper() restricted to ASCII. -/
def pyUpper (s : Str) : Str := s.map Char.toUpper

/-- The assist annotation of a goal line (video_desc_from_yaml.py lines 183-190):
an integer renders as "(assist from #n)"; a string whose upper-case form is a
scoring_abbrev key is looked up UNDER ITS ORIGINAL SPELLING (a KeyError - hence
`none` - unless the string already is a key); any other string renders as
"(assist from s)". -/
def assistNote : SP → Option Str
  | .int n => some ("(assist from #".toList ++ natToStr n ++ [')'])
  | .str s =>
    if pyUpper s ∈ abbrevKeys then
      match alookup s scoring_abbrev with
      | some v => some ('(' :: v ++ [')'])
      | none => none
    else some ("(assist from ".toList ++ s ++ [')'])

/-- The optional " (...)" suffix appended after the scorer. -/
def assistSuffix : Option SP → Option Str
  | none => some []
  | some p =>
    match assistNote p with
    | some ann => some (' ' :: ann)
    | none => none

/-- Scorer rendering: integers as "#n", strings verbatim, Python None as "None". -/
def renderPlayer : Option SP → Str
  | some (.int n) => '#' :: natToStr n
  | some (.str s) => s
  | none => "None".toList

/-- The optional " <minute>'" suffix. -/
def minuteSuffix : Option SP → Str
  | none => []
  | some (.int n) => ' ' :: natToStr n ++ [Char.ofNat 39]
  | some (.str s) => ' ' :: s ++ [Char.ofNat 39]

/- ===== split_team_name (video_desc_from_yaml.py line 66) =====
   re.split(r"\s*[BG]?\d{2,4}[BG]?\s*", team_name)[0]
   The regex matcher is written as an explicit leftmost-greedy backtracking
   matcher: each sub-pattern produces its candidate rests in greedy order and
   the first candidate that lets the whole pattern succeed wins. -/

/-- Candidate rests of `\s*` in greedy (longest first) order. -/
def spaceDrops : Str → List Str
  | [] => [[]]
  | c :: r => if pyIsSpace c then spaceDrops r ++ [c :: r] else [c :: r]

/-- Candidate rests of `[BG]?` in greedy order. -/
def optBG : Str → List Str
  | [] => [[]]
  | c :: r => if c = 'B' ∨ c = 'G' then [r, c :: r] else [c :: r]

/-- Candidate rests of `\d{2,4}` in greedy order (empty when no 2 digits). -/
def dig24 : Str → List Str
  | a :: b :: rest =>
    if a.isDigit && b.isDigit then
      match rest with
      | c :: rest2 =>
        if c.isDigit then
          match rest2 with
          | d :: rest3 => if d.isDigit then [rest3, rest2, rest] else [rest2, rest]
          | [] => [rest2, rest]
        else [rest]
      | [] => [rest]
    else []
  | _ => []

/-- First candidate on which the continuation succeeds (backtracking order). -/
def firstSome (f : Str → Option Str) : List Str → Option Str
  | [] => none
  | x :: xs =>
    match f x with
    | some r => some r
    | none => firstSome f xs

/-- Match of `\s*[BG]?\d{2,4}[BG]?\s*` anchored at the start of `l`, returning
the rest after the match.  The trailing `[BG]?\s*` cannot fail, so greedy
consumption needs no backtracking there. -/
def matchNoiseAt (l : Str) : Option Str :=
  firstSome (fun l1 =>
    firstSome (fun l2 =>
      firstSome (fun l3 => some (((optBG l3).headD l3).dropWhile pyIsSpace)) (dig24 l2))
      (optBG l1))
    (spaceDrops l)

/-- re.split for the noise pattern, with fuel (the match consumes at least two
characters, so `l.length + 1` fuel always suffices). -/
def reSplitNoiseF : Nat → Str → List Str
  | 0, l => [l]
  | fuel + 1, l =>
    match matchNoiseAt l with
    | some r => [] :: reSplitNoiseF fuel r
    | none =>
      match l with
      | [] => [[]]
      | c :: rest =>
        match reSplitNoiseF fuel rest with
        | s :: ss => (c :: s) :: ss
        | [] => [[c]]

/-- re.split(noise pattern, l). -/
def reSplitNoise (l : Str) : List Str := reSplitNoiseF (l.length + 1) l

/-- split_team_name: first element of the split. -/
def split_team_name (team_name : Str) : Str := (reSplitNoise team_name).headD []

/- ===== abbreviate_title (video_desc_from_yaml.py line 101) ===== -/

/-- Python str.lstrip(). -/
def pyLstrip (s : Str) : Str := s.dropWhile pyIsSpace

/-- Python str.rstrip(). -/
def pyRstrip : Str → Str
  | [] => []
  | c :: l =>
    match pyRstrip l with
    | [] => if pyIsSpace c then [] else [c]
    | x :: xs => c :: x :: xs

/-- Python str.strip(). -/
def pyStrip (s : Str) : Str := pyLstrip (pyRstrip s)

/-- Python str.split(sep) for a one-character separator (keeps empty parts). -/
def pySplitChar (sep : Char) : Str → List Str
  | [] => [[]]
  | c :: r =>
    if c = sep then [] :: pySplitChar sep r
    else
      match pySplitChar sep r with
      | s :: ss => (c :: s) :: ss
      | [] => [[c]]

/-- "|".join(segments). -/
def joinPipe : List Str → Str
  | [] => []
  | [s] => s
  | s :: t :: rest => s ++ '|' :: joinPipe (t :: rest)

/-- One loop body of abbreviate_title at index i (i ≥ 1):
segments[i] = segments[i].strip(); segments[i-1] = segments[i-1].rstrip(). -/
def updSegs (segs : List Str) (i : Nat) : List Str :=
  let s1 := segs.set i (pyStrip (segs.getD i []))
  s1.set (i - 1) (pyRstrip (s1.getD (i - 1) []))

/-- The for-loop of abbreviate_title: index k runs from len(segments)-1 down to
1, stopping early as soon as the joined title fits. -/
def abbrevGo (m : Nat) : List Str → Nat → List Str
  | segs, 0 => segs
  | segs, k + 1 =>
    if (joinPipe segs).length ≤ m then segs else abbrevGo m (updSegs segs (k + 1)) k

/-- abbreviate_title(title, max_title_length). -/
def abbreviate_title (title : Str) (max_title_length : Nat) : Str :=
  let segs := pySplitChar '|' title
  joinPipe (abbrevGo max_title_length segs (segs.length - 1))

/- ===== soccer_game_description (video_desc_from_yaml.py line 124) ===== -/

/-- The scoring_team key for home. -/
def strH : Str := ['H']

/-- The scoring_team key for away. -/
def strA : Str := ['A']

/-- Display-name resolution: the explicit abbreviation when it is present and
truthy (Python treats "" as falsy), otherwise split_team_name of the full name. -/
def teamShort (ab : Option Str) (full : Str) : Str :=
  match ab with
  | some s => if s = [] then split_team_name full else s
  | none => split_team_name full

/-- Home short display name as computed by soccer_game_description. -/
def shortH (game : Game) : Str := teamShort game.home_team_abbrev game.home_team

/-- Away short display name as computed by soccer_game_description. -/
def shortA (game : Game) : Str := teamShort game.away_team_abbrev game.away_team

/-- The running-scoreline fragment with the scoring side bracketed. -/
def bracketScore (team : Str) (h a : Nat) : Str :=
  if team = strH then '[' :: natToStr h ++ ']' :: '-' :: natToStr a
  else natToStr h ++ '-' :: '[' :: natToStr a ++ [']']

/-- One goal line of the description; `none` models a KeyError from the assist
shorthand lookup. -/
def renderGoalLine (sh sa : Str) (g : Goal) (scoreStr : Str) : Option Str :=
  match assistSuffix g.assist_player with
  | none => none
  | some asf =>
    some (parse_timestamp g.timestamp ++ ' ' :: sh ++ ' ' :: scoreStr ++ ' ' :: sa ++
      ' ' :: '-' :: ' ' :: renderPlayer g.scoring_player ++ asf ++ minuteSuffix g.minute)

/-- The goal loop of soccer_game_description, carrying team_score as (h, a);
`none` models a KeyError (a scoring_team outside H/A, or an assist lookup). -/
def goalsLoop (sh sa : Str) : List Goal → Nat → Nat → Option (List Str × Nat × Nat)
  | [], h, a => some ([], h, a)
  | g :: gs, h, a =>
    if g.scoring_team = strH then
      match renderGoalLine sh sa g (bracketScore g.scoring_team (h + 1) a) with
      | none => none
      | some line =>
        match goalsLoop sh sa gs (h + 1) a with
        | none => none
        | some (ls, hF, aF) => some (line :: ls, hF, aF)
    else if g.scoring_team = strA then
      match renderGoalLine sh sa g (bracketScore g.scoring_team h (a + 1)) with
      | none => none
      | some line =>
        match goalsLoop sh sa gs h (a + 1) with
        | none => none
        | some (ls, hF, aF) => some (line :: ls, hF, aF)
    else none

/-- "<home_team> <h>-<a> <away_team>". -/
def finalScorelineStr (game : Game) (h a : Nat) : Str :=
  game.home_team ++ ' ' :: natToStr h ++ '-' :: natToStr a ++ ' ' :: game.away_team

/-- " | ".join(title_segments) + "\n" (round inserted before the date). -/
def joinTitleSegs (game : Game) (fs : Str) : Str :=
  List.intercalate " | ".toList
    ([fs, game.division] ++ (match game.round with | some r => [r] | none => []) ++ [game.date])
    ++ ['\n']

/-- The title logic of soccer_game_description (lines 205-219): when the joined
title exceeds max_title_length + 1, abbreviation is attempted WITH THE DEFAULT
LIMIT 100 (the call site passes no limit) and a further newline is appended; the
result replaces the title only when it fits within max_title_length + 1. -/
def titleOf (game : Game) (fs : Str) (m : Nat) : Str :=
  let joined := joinTitleSegs game fs
  if m + 1 < joined.length then
    let nt := abbreviate_title joined 100 ++ ['\n']
    if m + 1 < nt.length then joined else nt
  else joined

/-- "<date> <division>" with " (<round>)" when round is present, plus newline. -/
def subtitleOf (game : Game) : Str :=
  game.date ++ ' ' :: game.division ++
    (match game.round with | some r => ' ' :: '(' :: r ++ ')' :: ['\n'] | none => ['\n'])

/-- soccer_game_description(game, goals, max_title_length). -/
def soccer_game_description (game : Game) (goals : Option (List Goal)) (m : Nat) : Option Str :=
  match (match goals with
         | none => some ([], 0, 0)
         | some gs => goalsLoop (shortH game) (shortA game) gs 0 0) with
  | none => none
  | some (descs, h, a) =>
    let fs := finalScorelineStr game h a
    some (List.intercalate ['\n'] ([titleOf game fs m, subtitleOf game, fs ++ ['\n']] ++ descs))

example : split_team_name ("Bay Area Surf 13B Pre-MLS".toList) = "Bay Area Surf".toList := by decide
example : split_team_name ("Bay Area Surf 2013 Black".toList) = "Bay Area Surf".toList := by decide
example : split_team_name ("Bay Area Surf".toList) = "Bay Area Surf".toList := by decide
example : parse_timestamp (.int 90) = "1:30".toList := by decide
example : parse_timestamp (.int 45) = ":45".toList := by decide
example : abbreviate_title ("This | is | a | test | title".toList) 20 = "This|is|a|test|title".toList := by decide
example : abbreviate_title ("This | is | a | test | title".toList) 24 = "This | is | a|test|title".toList := by decide
example : abbreviate_title ("This | is | a | test | title".toList) 30 = "This | is | a | test | title".toList := by decide

def regGame : Game :=
  ⟨"2023-11-04".toList, "Norcal U12 Premier".toList, "Bay Area Surf 13B Pre-MLS".toList,
   "Palo Alto SC 12B Gold".toList, none, none, none⟩

def regGoals : List Goal :=
  [⟨.str ("3:27".toList), strH, some (.str ("Dominic".toList)), some (.str ("Ayden".toList)), some (.int 4)⟩,
   ⟨.str ("4:47".toList), strH, some (.str ("Galvan".toList)), some (.str ("PK".toList)), some (.int 5)⟩,
   ⟨.str ("10:03".toList), strA, some (.int 27), some (.int 70), some (.int 11)⟩,
   ⟨.str ("11:02".toList), strA, some (.int 90), some (.str ("FK".toList)), some (.int 12)⟩,
   ⟨.str ("11:32".toList), strH, none, some (.str ("OG".toList)), some (.int 13)⟩]

def expReg : Str :=
  "Bay Area Surf 13B Pre-MLS 3-2 Palo Alto SC 12B Gold | Norcal U12 Premier | 2023-11-04\n\n2023-11-04 Norcal U12 Premier\n\nBay Area Surf 13B Pre-MLS 3-2 Palo Alto SC 12B Gold\n\n3:27 Bay Area Surf [1]-0 Palo Alto SC - Dominic (assist from Ayden) 4".toList
  ++ [Char.ofNat 39] ++ "\n4:47 Bay Area Surf [2]-0 Palo Alto SC - Galvan (penalty kick) 5".toList
  ++ [Char.ofNat 39] ++ "\n10:03 Bay Area Surf 2-[1] Palo Alto SC - #27 (assist from #70) 11".toList
  ++ [Char.ofNat 39] ++ "\n11:02 Bay Area Surf 2-[2] Palo Alto SC - #90 (free kick) 12".toList
  ++ [Char.ofNat 39] ++ "\n11:32 Bay Area Surf [3]-2 Palo Alto SC - None (own goal) 13".toList
  ++ [Char.ofNat 39]

set_option maxRecDepth 4000 in
example : soccer_game_description regGame (some regGoals) 100 = some expReg := by decide

/- ===== Supporting lemmas for parse_timestamp ===== -/

theorem natToStrF_head (fuel n : Nat) (hf : n < fuel) (hn : 0 < n) :
    ∃ c cs, natToStrF fuel n = c :: cs ∧ (c == '0') = false := by
  induction fuel generalizing n with
  | zero => omega
  | succ fuel ih =>
    by_cases h : n < 10
    · refine ⟨digitChar n, [], ?_, ?_⟩
      · simp [natToStrF, h]
      · interval_cases n <;> decide
    · have h10 : n / 10 < fuel := by
        have := Nat.div_lt_self hn (by omega : 1 < 10)
        omega
      have hpos : 0 < n / 10 := Nat.div_pos (by omega) (by omega)
      obtain ⟨c, cs, hrep, hc⟩ := ih (n / 10) h10 hpos
      refine ⟨c, cs ++ [digitChar (n % 10)], ?_, hc⟩
      simp [natToStrF, h, hrep]

theorem natToStr_head (n : Nat) (hn : 0 < n) :
    ∃ c cs, natToStr n = c :: cs ∧ (c == '0') = false :=
  natToStrF_head (n + 1) n (Nat.lt_succ_self n) hn

/-- Claim C3 (amended): parse_timestamp returns every string input unchanged and
converts integer seconds to a minutes:seconds string from which ALL leading '0'
characters are stripped (lstrip("0")); hence 90 seconds renders as "1:30" while
45 seconds renders as ":45" (the whole zero minutes field disappears), not as
"0:45" as the original claim stated. -/
theorem claim_C3_amended :
    (∀ s : Str, parse_timestamp (SP.str s) = s) ∧
    (∀ n : Nat, (n / 60) % 60 = 0 → parse_timestamp (SP.int n) = ':' :: pad2 (n % 60)) ∧
    (∀ n : Nat, 0 < (n / 60) % 60 →
      parse_timestamp (SP.int n) = natToStr ((n / 60) % 60) ++ ':' :: pad2 (n % 60)) ∧
    parse_timestamp (SP.int 90) = "1:30".toList ∧
    parse_timestamp (SP.int 45) = ":45".toList := by
  refine ⟨fun s => rfl, ?_, ?_, by decide, by decide⟩
  · intro n h
    have hp : pad2 0 = ['0', '0'] := by decide
    simp only [parse_timestamp, h, hp, List.cons_append, List.nil_append]
    rw [List.dropWhile_cons_of_pos (by decide), List.dropWhile_cons_of_pos (by decide),
      List.dropWhile_cons_of_neg (by decide)]
  · intro n h
    obtain ⟨c, cs, hrep, hc⟩ := natToStr_head _ h
    simp only [parse_timestamp]
    by_cases hlt : (n / 60) % 60 < 10
    · simp only [pad2, if_pos hlt, hrep, List.cons_append]
      rw [List.dropWhile_cons_of_pos (by decide), List.dropWhile_cons_of_neg (by simp [hc])]
    · simp only [pad2, if_neg hlt, hrep, List.cons_append]
      rw [List.dropWhile_cons_of_neg (by simp [hc])]

/-- Claim C3 counterexample: the code yields ":45" for 45 seconds, not the
"0:45" the claim states. -/
theorem claim_C3_counterexample :
    parse_timestamp (SP.int 45) = ":45".toList ∧
    decide (parse_timestamp (SP.int 45) = "0:45".toList) = false := by decide

/-- Witness for claim C3: the positive-minutes branch applied at 90 seconds. -/
theorem claim_C3_witness :
    0 < (90 / 60) % 60 ∧
    parse_timestamp (SP.int 90) = natToStr ((90 / 60) % 60) ++ ':' :: pad2 (90 % 60) :=
  ⟨by decide, claim_C3_amended.2.2.1 90 (by decide)⟩

/- ===== Claim C2: assist shorthand expansion ===== -/

theorem alookup_eq_none (k : Str) (L : List (Str × Str)) (h : k ∉ L.map Prod.fst) :
    alookup k L = none := by
  induction L with
  | nil => rfl
  | cons p rest ih =>
    have h1 : k ≠ p.1 := by
      intro hk
      exact h (by simp [hk])
    have h2 : k ∉ rest.map Prod.fst := by
      intro hk
      exact h (by simp [hk])
    simpa [alookup, h1] using ih h2

/-- Claim C2 (amended): an assist string that is exactly one of the four
dictionary keys "PK"/"FK"/"OG"/"CK" renders as the expanded phrase in
parentheses; a string whose upper-case form is not a key renders as
"(assist from <name>)"; but a string whose upper-case form is a key while the
string itself is not (e.g. a lowercase "pk") hits a KeyError - the lookup uses
the original spelling - so the case-insensitive expansion the original claim
describes does not exist, and the codes "Penalty"/"Penalty Kick"/"Free Kick"/
"Own Goal" are not in the dictionary at all. -/
theorem claim_C2_amended (s : Str) :
    assistNote (SP.str ("PK".toList)) = some ("(penalty kick)".toList) ∧
    assistNote (SP.str ("FK".toList)) = some ("(free kick)".toList) ∧
    assistNote (SP.str ("OG".toList)) = some ("(own goal)".toList) ∧
    assistNote (SP.str ("CK".toList)) = some ("(corner kick)".toList) ∧
    (pyUpper s ∉ abbrevKeys →
      assistNote (SP.str s) = some ("(assist from ".toList ++ s ++ [')'])) ∧
    (pyUpper s ∈ abbrevKeys → s ∉ abbrevKeys → assistNote (SP.str s) = none) := by
  refine ⟨by decide, by decide, by decide, by decide, ?_, ?_⟩
  · intro h
    simp [assistNote, h]
  · intro h1 h2
    have hl : alookup s scoring_abbrev = none := alookup_eq_none s scoring_abbrev h2
    simp [assistNote, h1, hl]

/-- Claim C2 counterexample: "Penalty" (in the claim's shorthand set) renders as
a literal assister name, "pk" (a case-insensitive match of "PK") raises a
KeyError instead of rendering "(penalty kick)", and a full description run with
assist "Penalty" shows the literal rendering end to end. -/
theorem claim_C2_counterexample :
    assistNote (SP.str ("Penalty".toList)) = some ("(assist from Penalty)".toList) ∧
    decide (assistNote (SP.str ("Penalty".toList)) = some ("(penalty kick)".toList)) = false ∧
    assistNote (SP.str ("pk".toList)) = none ∧
    soccer_game_description
      ⟨"dt".toList, "dv".toList, "X".toList, "Y".toList, none, none, none⟩
      (some [⟨.str ("1:00".toList), strH, some (.str ("D".toList)),
             some (.str ("Penalty".toList)), none⟩]) 100
      = some ("X 1-0 Y | dv | dt\n\ndt dv\n\nX 1-0 Y\n\n1:00 X [1]-0 Y - D (assist from Penalty)".toList) := by
  decide

/-- Witness for claim C2: the literal-name branch applied at "Bob". -/
theorem claim_C2_witness :
    pyUpper ("Bob".toList) ∉ abbrevKeys ∧
    assistNote (SP.str ("Bob".toList)) = some ("(assist from Bob)".toList) :=
  ⟨by decide, (claim_C2_amended ("Bob".toList)).2.2.2.2.1 (by decide)⟩

/- ===== Claim C8: out-of-domain scoring_team fails fast ===== -/

theorem goalsLoop_bad_team (sh sa : Str) (gs : List Goal) (g : Goal) (hg : g ∈ gs)
    (hH : g.scoring_team ≠ strH) (hA : g.scoring_team ≠ strA) :
    ∀ h a, goalsLoop sh sa gs h a = none := by
  induction gs with
  | nil => cases hg
  | cons g0 gs ih =>
    intro h a
    rcases List.mem_cons.1 hg with rfl | hmem
    · simp [goalsLoop, if_neg hH, if_neg hA]
    · simp only [goalsLoop]
      by_cases h0 : g0.scoring_team = strH
      · rw [if_pos h0]
        cases renderGoalLine sh sa g0 (bracketScore g0.scoring_team (h + 1) a) with
        | none => rfl
        | some line => rw [ih hmem (h + 1) a]
      · rw [if_neg h0]
        by_cases h1 : g0.scoring_team = strA
        · rw [if_pos h1]
          cases renderGoalLine sh sa g0 (bracketScore g0.scoring_team h (a + 1)) with
          | none => rfl
          | some line => rw [ih hmem h (a + 1)]
        · rw [if_neg h1]

/-- Claim C8: a goal list containing a goal whose scoring_team is neither "H"
nor "A" makes soccer_game_description fail (the team_score dictionary access
raises KeyError before any description string is produced). -/
theorem claim_C8 (game : Game) (goals : List Goal) (m : Nat) (g : Goal) (hg : g ∈ goals)
    (hH : g.scoring_team ≠ strH) (hA : g.scoring_team ≠ strA) :
    soccer_game_description game (some goals) m = none := by
  simp [soccer_game_description, goalsLoop_bad_team (shortH game) (shortA game) goals g hg hH hA]

/-- Witness for claim C8: a concrete goal with scoring_team "X" aborts the
description. -/
theorem claim_C8_witness :
    (⟨SP.str ("1:00".toList), "X".toList, some (SP.str ("D".toList)), none, none⟩ : Goal).scoring_team ≠ strH ∧
    soccer_game_description ⟨"dt".toList, "dv".toList, "Hm".toList, "Aw".toList, none, none, none⟩
      (some [⟨SP.str ("1:00".toList), "X".toList, some (SP.str ("D".toList)), none, none⟩]) 100 = none :=
  ⟨by decide,
   claim_C8 ⟨"dt".toList, "dv".toList, "Hm".toList, "Aw".toList, none, none, none⟩
     [⟨SP.str ("1:00".toList), "X".toList, some (SP.str ("D".toList)), none, none⟩] 100
     ⟨SP.str ("1:00".toList), "X".toList, some (SP.str ("D".toList)), none, none⟩
     (by decide) (by decide) (by decide)⟩

/- ===== Claim C10: noise pattern at the start of a team name ===== -/

/-- Claim C10: when the noise pattern matches at the very start of a team name,
split_team_name returns the empty string, and a game whose home team has that
name and no explicit abbreviation gets an empty short display name, so every
goal line of the description is rendered with the empty home name. -/
theorem claim_C10 (name r : Str) (hm : matchNoiseAt name = some r) (game : Game)
    (hname : game.home_team = name) (hab : game.home_team_abbrev = none) :
    split_team_name name = [] ∧ shortH game = [] ∧
    ∀ (goals : List Goal) (h a : Nat),
      goalsLoop (shortH game) (shortA game) goals h a = goalsLoop [] (shortA game) goals h a := by
  have h1 : split_team_name name = [] := by
    simp [split_team_name, reSplitNoise, reSplitNoiseF, hm]
  have h2 : shortH game = [] := by
    simp [shortH, teamShort, hab, hname, h1]
  exact ⟨h1, h2, fun goals h a => by rw [h2]⟩

/-- Witness for claim C10: the noise pattern "2013 " matches at the start of
"2013 Surf", so the home short name is empty. -/
theorem claim_C10_witness :
    matchNoiseAt ("2013 Surf".toList) = some ("Surf".toList) ∧
    shortH ⟨"dt".toList, "dv".toList, "2013 Surf".toList, "Y".toList, none, none, none⟩ = [] :=
  ⟨by decide,
   (claim_C10 ("2013 Surf".toList) ("Surf".toList) (by decide)
     ⟨"dt".toList, "dv".toList, "2013 Surf".toList, "Y".toList, none, none, none⟩ rfl rfl).2.1⟩

/- ===== Supporting lemmas: Python strip family ===== -/

theorem pyRstrip_cons_of_nil (c : Char) (l : Str) (h : pyRstrip l = []) :
    pyRstrip (c :: l) = if pyIsSpace c then [] else [c] := by
  simp [pyRstrip, h]

theorem pyRstrip_cons_of_cons (c : Char) (l : Str) (x : Char) (xs : Str)
    (h : pyRstrip l = x :: xs) : pyRstrip (c :: l) = c :: x :: xs := by
  simp [pyRstrip, h]

theorem pyLstrip_cons_pos (c : Char) (l : Str) (h : pyIsSpace c = true) :
    pyLstrip (c :: l) = pyLstrip l := by
  simp [pyLstrip, List.dropWhile_cons, h]

theorem pyLstrip_cons_neg (c : Char) (l : Str) (h : ¬pyIsSpace c = true) :
    pyLstrip (c :: l) = c :: l := by
  simp [pyLstrip, List.dropWhile_cons, h]

theorem pyLstrip_idem (l : Str) : pyLstrip (pyLstrip l) = pyLstrip l := by
  induction l with
  | nil => rfl
  | cons c r ih =>
    by_cases h : pyIsSpace c
    · rw [pyLstrip_cons_pos c r h, ih]
    · rw [pyLstrip_cons_neg c r h, pyLstrip_cons_neg c r h]

theorem pyRstrip_eq_nil_allspace (l : Str) (h : pyRstrip l = []) :
    ∀ c ∈ l, pyIsSpace c = true := by
  induction l with
  | nil => intro c hc; cases hc
  | cons c r ih =>
    intro d hd
    cases hr : pyRstrip r with
    | nil =>
      by_cases hs : pyIsSpace c
      · rcases List.mem_cons.1 hd with rfl | hdr
        · exact hs
        · exact ih hr d hdr
      · rw [pyRstrip_cons_of_nil c r hr, if_neg hs] at h
        cases h
    | cons x xs =>
      rw [pyRstrip_cons_of_cons c r x xs hr] at h
      cases h

theorem pyRstrip_decomp (l : Str) :
    ∃ suf, (∀ c ∈ suf, pyIsSpace c = true) ∧ l = pyRstrip l ++ suf := by
  induction l with
  | nil => exact ⟨[], by simp, by simp [pyRstrip]⟩
  | cons c r ih =>
    obtain ⟨suf, hsuf, hr⟩ := ih
    cases hrs : pyRstrip r with
    | nil =>
      by_cases hs : pyIsSpace c
      · refine ⟨c :: suf, ?_, ?_⟩
        · intro d hd
          rcases List.mem_cons.1 hd with rfl | hd
          · exact hs
          · exact hsuf d hd
        · rw [pyRstrip_cons_of_nil c r hrs, if_pos hs]
          rw [hrs] at hr
          simpa using hr
      · refine ⟨suf, hsuf, ?_⟩
        rw [pyRstrip_cons_of_nil c r hrs, if_neg hs]
        rw [hrs] at hr
        simpa using hr
    | cons x xs =>
      refine ⟨suf, hsuf, ?_⟩
      rw [pyRstrip_cons_of_cons c r x xs hrs]
      rw [hrs] at hr
      simpa using hr

theorem pyRstrip_idem (l : Str) : pyRstrip (pyRstrip l) = pyRstrip l := by
  induction l with
  | nil => rfl
  | cons c r ih =>
    cases hrs : pyRstrip r with
    | nil =>
      rw [pyRstrip_cons_of_nil c r hrs]
      by_cases hs : pyIsSpace c
      · rw [if_pos hs]; rfl
      · rw [if_neg hs]
        have h0 : pyRstrip ([] : Str) = [] := by simp [pyRstrip]
        rw [pyRstrip_cons_of_nil c [] h0, if_neg hs]
    | cons x xs =>
      rw [pyRstrip_cons_of_cons c r x xs hrs]
      have h2 : pyRstrip (x :: xs) = x :: xs := by rw [← hrs, ih, hrs]
      exact pyRstrip_cons_of_cons c (x :: xs) x xs h2

theorem pyLstrip_rstrip_comm (l : Str) : pyLstrip (pyRstrip l) = pyRstrip (pyLstrip l) := by
  induction l with
  | nil => rfl
  | cons c r ih =>
    by_cases hs : pyIsSpace c
    · rw [pyLstrip_cons_pos c r hs]
      cases hrs : pyRstrip r with
      | nil =>
        rw [pyRstrip_cons_of_nil c r hrs, if_pos hs]
        rw [hrs] at ih
        rw [← ih]
      | cons x xs =>
        rw [pyRstrip_cons_of_cons c r x xs hrs, pyLstrip_cons_pos c (x :: xs) hs, ← hrs, ih]
    · rw [pyLstrip_cons_neg c r hs]
      cases hrs : pyRstrip r with
      | nil =>
        rw [pyRstrip_cons_of_nil c r hrs, if_neg hs, pyLstrip_cons_neg c [] hs]
      | cons x xs =>
        rw [pyRstrip_cons_of_cons c r x xs hrs, pyLstrip_cons_neg c (x :: xs) hs]

theorem pyStrip_idem (l : Str) : pyStrip (pyStrip l) = pyStrip l := by
  unfold pyStrip
  rw [pyLstrip_rstrip_comm (pyLstrip (pyRstrip l)), pyLstrip_idem, ← pyLstrip_rstrip_comm,
    pyRstrip_idem]

theorem pyRstrip_strip (l : Str) : pyRstrip (pyStrip l) = pyStrip l := by
  unfold pyStrip
  rw [← pyLstrip_rstrip_comm, pyRstrip_idem]

theorem pyStrip_rstrip (l : Str) : pyStrip (pyRstrip l) = pyStrip l := by
  unfold pyStrip
  rw [pyRstrip_idem]

theorem pyRstrip_length_le (l : Str) : (pyRstrip l).length ≤ l.length := by
  induction l with
  | nil => exact Nat.le_refl 0
  | cons c r ih =>
    cases hrs : pyRstrip r with
    | nil =>
      rw [pyRstrip_cons_of_nil c r hrs]
      by_cases hs : pyIsSpace c
      · rw [if_pos hs]; simp
      · rw [if_neg hs]; simp
    | cons x xs =>
      rw [pyRstrip_cons_of_cons c r x xs hrs]
      rw [hrs] at ih
      simp only [List.length_cons] at ih ⊢
      omega

theorem pyLstrip_length_le (l : Str) : (pyLstrip l).length ≤ l.length :=
  (List.dropWhile_sublist _).length_le

theorem pyStrip_length_le (l : Str) : (pyStrip l).length ≤ l.length :=
  Nat.le_trans (pyLstrip_length_le _) (pyRstrip_length_le _)

theorem pyRstrip_mem (l : Str) (c : Char) (h : c ∈ pyRstrip l) : c ∈ l := by
  induction l with
  | nil => cases h
  | cons d r ih =>
    cases hrs : pyRstrip r with
    | nil =>
      rw [pyRstrip_cons_of_nil d r hrs] at h
      by_cases hs : pyIsSpace d
      · rw [if_pos hs] at h; cases h
      · rw [if_neg hs] at h
        rcases List.mem_singleton.1 h with rfl
        exact List.mem_cons_self _ _
    | cons x xs =>
      rw [hrs] at ih
      rw [pyRstrip_cons_of_cons d r x xs hrs] at h
      rcases List.mem_cons.1 h with rfl | h2
      · exact List.mem_cons_self _ _
      · exact List.mem_cons_of_mem _ (ih h2)

theorem pyLstrip_mem (l : Str) (c : Char) (h : c ∈ pyLstrip l) : c ∈ l :=
  (List.dropWhile_sublist _).mem h

theorem pyStrip_mem (l : Str) (c : Char) (h : c ∈ pyStrip l) : c ∈ l :=
  pyRstrip_mem l c (pyLstrip_mem _ c h)

/- ===== Supporting lemmas: split on pipe and join ===== -/

theorem pySplitChar_cons_eq (sep : Char) (r : Str) :
    pySplitChar sep (sep :: r) = [] :: pySplitChar sep r := by
  simp [pySplitChar]

theorem pySplitChar_cons_ne (sep c : Char) (r : Str) (h : ¬c = sep) (t : Str) (ts : List Str)
    (hr : pySplitChar sep r = t :: ts) : pySplitChar sep (c :: r) = (c :: t) :: ts := by
  simp [pySplitChar, h, hr]

theorem pySplitChar_ne_nil (sep : Char) (l : Str) : pySplitChar sep l ≠ [] := by
  cases l with
  | nil => simp [pySplitChar]
  | cons c r =>
    by_cases h : c = sep
    · subst h; rw [pySplitChar_cons_eq]; simp
    · cases hr : pySplitChar sep r with
      | nil =>
        simp only [pySplitChar, if_neg h, hr]
        simp
      | cons t ts =>
        rw [pySplitChar_cons_ne sep c r h t ts hr]
        simp

theorem joinPipe_cons_head (c : Char) (s : Str) (ss : List Str) :
    joinPipe ((c :: s) :: ss) = c :: joinPipe (s :: ss) := by
  cases ss with
  | nil => rfl
  | cons t rest => rfl

theorem joinPipe_split (l : Str) : joinPipe (pySplitChar '|' l) = l := by
  induction l with
  | nil => rfl
  | cons c r ih =>
    by_cases h : c = '|'
    · subst h
      rw [pySplitChar_cons_eq]
      cases hs : pySplitChar '|' r with
      | nil => exact absurd hs (pySplitChar_ne_nil _ _)
      | cons t rest =>
        show joinPipe ([] :: t :: rest) = '|' :: r
        rw [show joinPipe ([] :: t :: rest) = [] ++ '|' :: joinPipe (t :: rest) from rfl]
        rw [← hs, ih]
        rfl
    · cases hs : pySplitChar '|' r with
      | nil => exact absurd hs (pySplitChar_ne_nil _ _)
      | cons t rest =>
        rw [pySplitChar_cons_ne '|' c r h t rest hs, joinPipe_cons_head, ← hs, ih]

theorem pySplitChar_of_not_mem (sep : Char) (s : Str) (h : sep ∉ s) :
    pySplitChar sep s = [s] := by
  induction s with
  | nil => rfl
  | cons c r ih =>
    have hc : ¬c = sep := fun hx => h (hx ▸ List.mem_cons_self _ _)
    have hr : sep ∉ r := fun hm => h (List.mem_cons_of_mem _ hm)
    exact pySplitChar_cons_ne sep c r hc r [] (ih hr)

theorem pySplitChar_append (sep : Char) (s rest : Str) (h : sep ∉ s) :
    pySplitChar sep (s ++ sep :: rest) = s :: pySplitChar sep rest := by
  induction s with
  | nil => simpa using pySplitChar_cons_eq sep rest
  | cons c s ih =>
    have hc : ¬c = sep := fun hx => h (hx ▸ List.mem_cons_self _ _)
    have hs : sep ∉ s := fun hm => h (List.mem_cons_of_mem _ hm)
    rw [List.cons_append]
    exact pySplitChar_cons_ne sep c (s ++ sep :: rest) hc s (pySplitChar sep rest) (ih hs)

theorem pySplitChar_joinPipe (L : List Str) (hne : L ≠ [])
    (h : ∀ s ∈ L, '|' ∉ s) : pySplitChar '|' (joinPipe L) = L := by
  induction L with
  | nil => exact absurd rfl hne
  | cons s L ih =>
    cases L with
    | nil =>
      show pySplitChar '|' (joinPipe [s]) = [s]
      exact pySplitChar_of_not_mem '|' s (h s (List.mem_cons_self _ _))
    | cons t rest =>
      show pySplitChar '|' (s ++ '|' :: joinPipe (t :: rest)) = s :: t :: rest
      rw [pySplitChar_append '|' s _ (h s (List.mem_cons_self _ _))]
      rw [ih (by simp) (fun x hx => h x (List.mem_cons_of_mem _ hx))]

theorem pySplitChar_no_sep (sep : Char) (l : Str) :
    ∀ s ∈ pySplitChar sep l, sep ∉ s := by
  induction l with
  | nil =>
    intro s hs
    rcases List.mem_singleton.1 hs with rfl
    simp
  | cons c r ih =>
    intro s hs
    by_cases h : c = sep
    · subst h
      rw [pySplitChar_cons_eq] at hs
      rcases List.mem_cons.1 hs with rfl | hmem
      · simp
      · exact ih s hmem
    · cases hr : pySplitChar sep r with
      | nil => exact absurd hr (pySplitChar_ne_nil _ _)
      | cons t rest =>
        rw [pySplitChar_cons_ne sep c r h t rest hr] at hs
        rcases List.mem_cons.1 hs with rfl | hmem
        · intro hin
          rcases List.mem_cons.1 hin with rfl | hin2
          · exact h rfl
          · exact ih t (hr ▸ List.mem_cons_self _ _) hin2
        · exact ih s (hr ▸ List.mem_cons_of_mem _ hmem)

theorem joinPipe_length (L : List Str) :
    (joinPipe L).length = (L.map List.length).sum + (L.length - 1) := by
  induction L with
  | nil => rfl
  | cons s L ih =>
    cases L with
    | nil => simp [joinPipe]
    | cons t rest =>
      show (s ++ '|' :: joinPipe (t :: rest)).length = _
      simp only [List.length_append, List.length_cons, List.map_cons, List.sum_cons] at ih ⊢
      omega

/- ===== Supporting lemmas: getD / set on lists of strings ===== -/

theorem list_getD_set (l : List Str) (i j : Nat) (x : Str) :
    (l.set i x).getD j [] = if i = j ∧ i < l.length then x else l.getD j [] := by
  induction l generalizing i j with
  | nil => simp [List.set]
  | cons h t ih =>
    cases i with
    | zero =>
      cases j with
      | zero => simp
      | succ j => simp
    | succ i =>
      cases j with
      | zero => simp
      | succ j =>
        simp only [List.set, List.getD_cons_succ, List.length_cons, ih i j]
        by_cases hij : i = j ∧ i < t.length
        · rw [if_pos hij, if_pos ⟨congrArg Nat.succ hij.1, by omega⟩]
        · rw [if_neg hij, if_neg (by omega)]

theorem list_ext_getD (L M : List Str) (hlen : L.length = M.length)
    (h : ∀ j, j < L.length → L.getD j [] = M.getD j []) : L = M := by
  induction L generalizing M with
  | nil =>
    cases M with
    | nil => rfl
    | cons m ms => cases hlen
  | cons a L ih =>
    cases M with
    | nil => cases hlen
    | cons m ms =>
      have h0 : a = m := h 0 (by simp)
      have ht : L = ms := by
        refine ih ms (by simpa using hlen) ?_
        intro j hj
        have := h (j + 1) (by simpa using Nat.succ_lt_succ hj)
        simpa using this
      rw [h0, ht]

theorem list_getD_mem_or_default (M : List Str) (j : Nat) :
    M.getD j [] = [] ∨ M.getD j [] ∈ M := by
  induction M generalizing j with
  | nil => left; simp
  | cons a t ih =>
    cases j with
    | zero => right; simp
    | succ j =>
      rcases ih j with h | h
      · left; simpa using h
      · right; simp only [List.getD_cons_succ]; exact List.mem_cons_of_mem _ h

/- ===== Whitespace-removal decomposition ===== -/

/-- `b` arises from `a` by removing a fully-whitespace prefix and suffix. -/
def DecompWS (a b : Str) : Prop :=
  ∃ pre suf, (∀ c ∈ pre, pyIsSpace c = true) ∧ (∀ c ∈ suf, pyIsSpace c = true) ∧
    a = pre ++ b ++ suf

theorem DecompWS.refl (a : Str) : DecompWS a a :=
  ⟨[], [], by simp, by simp, by simp⟩

theorem DecompWS.trans (a b c : Str) (h1 : DecompWS a b) (h2 : DecompWS b c) :
    DecompWS a c := by
  obtain ⟨p1, s1, hp1, hs1, e1⟩ := h1
  obtain ⟨p2, s2, hp2, hs2, e2⟩ := h2
  refine ⟨p1 ++ p2, s2 ++ s1, ?_, ?_, ?_⟩
  · intro d hd
    rcases List.mem_append.1 hd with h | h
    · exact hp1 d h
    · exact hp2 d h
  · intro d hd
    rcases List.mem_append.1 hd with h | h
    · exact hs2 d h
    · exact hs1 d h
  · rw [e1, e2]
    simp [List.append_assoc]

theorem DecompWS.of_rstrip (a : Str) : DecompWS a (pyRstrip a) := by
  obtain ⟨suf, hsuf, he⟩ := pyRstrip_decomp a
  exact ⟨[], suf, by simp, hsuf, by simpa using he⟩

theorem DecompWS.of_lstrip (a : Str) : DecompWS a (pyLstrip a) := by
  refine ⟨a.takeWhile pyIsSpace, [], ?_, by simp, ?_⟩
  · intro d hd
    exact List.mem_takeWhile_imp hd
  · rw [List.append_nil]
    unfold pyLstrip
    exact (List.takeWhile_append_dropWhile pyIsSpace a).symm

theorem DecompWS.of_strip (a : Str) : DecompWS a (pyStrip a) :=
  DecompWS.trans a (pyRstrip a) (pyStrip a) (DecompWS.of_rstrip a)
    (DecompWS.of_lstrip (pyRstrip a))

/- ===== The abbreviate_title loop: normal form and fixed points ===== -/

theorem updSegs_length (segs : List Str) (i : Nat) :
    (updSegs segs i).length = segs.length := by
  simp [updSegs]

theorem updSegs_getD (segs : List Str) (i : Nat) (h1 : 1 ≤ i) (h2 : i < segs.length) (j : Nat) :
    (updSegs segs i).getD j [] =
      if j = i then pyStrip (segs.getD i [])
      else if j = i - 1 then pyRstrip (segs.getD (i - 1) [])
      else segs.getD j [] := by
  simp only [updSegs]
  rw [list_getD_set, List.length_set]
  have hinner : (segs.set i (pyStrip (segs.getD i []))).getD (i - 1) [] = segs.getD (i - 1) [] := by
    rw [list_getD_set, if_neg (by omega)]
  rw [hinner]
  by_cases hji : j = i
  · subst hji
    rw [if_neg (by omega), list_getD_set, if_pos ⟨rfl, h2⟩, if_pos rfl]
  · by_cases hji1 : j = i - 1
    · subst hji1
      rw [if_pos ⟨rfl, by omega⟩, if_neg (by omega), if_pos rfl]
    · rw [if_neg (by omega), list_getD_set, if_neg (by omega), if_neg hji, if_neg hji1]

/-- All loop iterations of abbreviate_title applied unconditionally (the shape
the loop takes when the early-exit length test never fires). -/
def applyAllSegs : List Str → Nat → List Str
  | segs, 0 => segs
  | segs, k + 1 => applyAllSegs (updSegs segs (k + 1)) k

theorem applyAllSegs_length (segs : List Str) (k : Nat) :
    (applyAllSegs segs k).length = segs.length := by
  induction k generalizing segs with
  | zero => rfl
  | succ k ih => rw [applyAllSegs, ih, updSegs_length]

theorem applyAllSegs_getD (segs : List Str) (k : Nat) (hk : k < segs.length) (j : Nat) :
    (applyAllSegs segs k).getD j [] =
      if j = 0 then (if 1 ≤ k then pyRstrip (segs.getD 0 []) else segs.getD 0 [])
      else if j ≤ k then pyStrip (segs.getD j []) else segs.getD j [] := by
  induction k generalizing segs with
  | zero =>
    rw [show applyAllSegs segs 0 = segs from rfl]
    split_ifs <;> first | rfl | (exfalso; omega) | simp_all
  | succ k ih =>
    have hk1 : 1 ≤ k + 1 := by omega
    have hklt : k < (updSegs segs (k + 1)).length := by
      rw [updSegs_length]
      omega
    rw [applyAllSegs, ih (updSegs segs (k + 1)) hklt,
      updSegs_getD segs (k + 1) hk1 hk 0, updSegs_getD segs (k + 1) hk1 hk j]
    simp only [Nat.add_sub_cancel]
    split_ifs <;>
      first
        | rfl
        | (exfalso; omega)
        | exact False.elim (by assumption)
        | (rw [pyStrip_rstrip] <;> rfl)
        | (rw [pyStrip_idem] <;> rfl)
        | (rw [pyRstrip_idem] <;> rfl)
        | (rw [pyRstrip_strip] <;> rfl)
        | exact congrArg (fun x => pyStrip (List.getD segs x [])) (by omega : k = j)
        | (rw [pyStrip_rstrip] <;>
            exact congrArg (fun x => pyStrip (List.getD segs x [])) (by omega : k = j))
        | exact congrArg (fun x => pyRstrip (List.getD segs x [])) (by omega : k = j)
        | exact congrArg (fun x => List.getD segs x []) (by omega : k = j)
        | simp_all [pyStrip_rstrip, pyStrip_idem, pyRstrip_idem, pyRstrip_strip]

theorem abbrevGo_of_over (m : Nat) (segs : List Str) (k : Nat)
    (h : m < (joinPipe (abbrevGo m segs k)).length) :
    abbrevGo m segs k = applyAllSegs segs k := by
  induction k generalizing segs with
  | zero => rfl
  | succ k ih =>
    by_cases hle : (joinPipe segs).length ≤ m
    · rw [abbrevGo, if_pos hle] at h ⊢
      omega
    · rw [abbrevGo, if_neg hle] at h ⊢
      rw [ih (updSegs segs (k + 1)) h]
      rfl

theorem updSegs_fix (segs : List Str) (k : Nat) (hk : k < segs.length) (i : Nat)
    (hi1 : 1 ≤ i) (hik : i ≤ k) :
    updSegs (applyAllSegs segs k) i = applyAllSegs segs k := by
  have hilen : i < (applyAllSegs segs k).length := by rw [applyAllSegs_length]; omega
  refine list_ext_getD _ _ (by rw [updSegs_length]) ?_
  intro j hj
  rw [updSegs_getD (applyAllSegs segs k) i hi1 hilen j]
  by_cases hji : j = i
  · subst hji
    rw [if_pos rfl, applyAllSegs_getD segs k hk j, if_neg (by omega), if_pos hik,
      pyStrip_idem]
  · rw [if_neg hji]
    by_cases hji1 : j = i - 1
    · subst hji1
      rw [if_pos rfl, applyAllSegs_getD segs k hk (i - 1)]
      by_cases hi0 : i - 1 = 0
      · rw [if_pos hi0, if_pos (by omega), pyRstrip_idem]
      · rw [if_neg hi0, if_pos (by omega), pyRstrip_strip]
    · rw [if_neg hji1]

theorem abbrevGo_fix (m : Nat) (A : List Str) (k : Nat)
    (h : ∀ i, 1 ≤ i → i ≤ k → updSegs A i = A) : abbrevGo m A k = A := by
  induction k with
  | zero => rfl
  | succ k ih =>
    by_cases hle : (joinPipe A).length ≤ m
    · rw [abbrevGo, if_pos hle]
    · rw [abbrevGo, if_neg hle, h (k + 1) (by omega) (by omega)]
      exact ih (fun i hi1 hik => h i hi1 (by omega))

/- ===== abbreviate_title: length monotonicity and segment preservation ===== -/

theorem sum_map_length_set_le (L : List Str) (i : Nat) (x : Str)
    (h : x.length ≤ (L.getD i []).length) :
    ((L.set i x).map List.length).sum ≤ (L.map List.length).sum := by
  induction L generalizing i with
  | nil => simp
  | cons a t ih =>
    cases i with
    | zero =>
      simp only [List.getD_cons_zero] at h
      simp only [List.set, List.map_cons, List.sum_cons]
      omega
    | succ i =>
      simp only [List.getD_cons_succ] at h
      simp only [List.set, List.map_cons, List.sum_cons]
      have := ih i h
      omega

theorem joinPipe_updSegs_le (segs : List Str) (i : Nat) :
    (joinPipe (updSegs segs i)).length ≤ (joinPipe segs).length := by
  rw [joinPipe_length, joinPipe_length, updSegs_length]
  have h2 : ((updSegs segs i).map List.length).sum ≤ (segs.map List.length).sum := by
    refine Nat.le_trans (sum_map_length_set_le _ _ _ ?_) (sum_map_length_set_le _ _ _ ?_)
    · exact pyRstrip_length_le _
    · exact pyStrip_length_le _
  omega

theorem abbrevGo_join_length_le (m : Nat) (segs : List Str) (k : Nat) :
    (joinPipe (abbrevGo m segs k)).length ≤ (joinPipe segs).length := by
  induction k generalizing segs with
  | zero => exact Nat.le_refl _
  | succ k ih =>
    by_cases hle : (joinPipe segs).length ≤ m
    · rw [abbrevGo, if_pos hle]
    · rw [abbrevGo, if_neg hle]
      exact Nat.le_trans (ih (updSegs segs (k + 1))) (joinPipe_updSegs_le segs (k + 1))

theorem abbrevGo_length (m : Nat) (segs : List Str) (k : Nat) :
    (abbrevGo m segs k).length = segs.length := by
  induction k generalizing segs with
  | zero => rfl
  | succ k ih =>
    by_cases hle : (joinPipe segs).length ≤ m
    · rw [abbrevGo, if_pos hle]
    · rw [abbrevGo, if_neg hle, ih (updSegs segs (k + 1)), updSegs_length]

theorem updSegs_no_pipe (segs : List Str) (i : Nat) (h : ∀ s ∈ segs, '|' ∉ s) :
    ∀ s ∈ updSegs segs i, '|' ∉ s := by
  have hD : ∀ j, '|' ∉ segs.getD j [] := by
    intro j
    rcases list_getD_mem_or_default segs j with he | hm
    · rw [he]; simp
    · exact h _ hm
  have hS1 : ∀ s ∈ segs.set i (pyStrip (segs.getD i [])), '|' ∉ s := by
    intro s hs
    rcases List.mem_or_eq_of_mem_set hs with hm | rfl
    · exact h s hm
    · intro hin
      exact hD i (pyStrip_mem _ _ hin)
  have hD1 : ∀ j, '|' ∉ (segs.set i (pyStrip (segs.getD i []))).getD j [] := by
    intro j
    rcases list_getD_mem_or_default (segs.set i (pyStrip (segs.getD i []))) j with he | hm
    · rw [he]; simp
    · exact hS1 _ hm
  intro s hs
  rcases List.mem_or_eq_of_mem_set hs with hm | rfl
  · exact hS1 s hm
  · intro hin
    exact hD1 (i - 1) (pyRstrip_mem _ _ hin)

theorem abbrevGo_no_pipe (m : Nat) (segs : List Str) (k : Nat)
    (h : ∀ s ∈ segs, '|' ∉ s) : ∀ s ∈ abbrevGo m segs k, '|' ∉ s := by
  induction k generalizing segs with
  | zero => exact h
  | succ k ih =>
    by_cases hle : (joinPipe segs).length ≤ m
    · rw [abbrevGo, if_pos hle]; exact h
    · rw [abbrevGo, if_neg hle]
      exact ih (updSegs segs (k + 1)) (updSegs_no_pipe segs (k + 1) h)

theorem abbrevGo_decompWS (m : Nat) (segs : List Str) (k : Nat) (hk : k < segs.length) (j : Nat) :
    DecompWS (segs.getD j []) ((abbrevGo m segs k).getD j []) := by
  induction k generalizing segs with
  | zero => exact DecompWS.refl _
  | succ k ih =>
    by_cases hle : (joinPipe segs).length ≤ m
    · rw [abbrevGo, if_pos hle]; exact DecompWS.refl _
    · rw [abbrevGo, if_neg hle]
      refine DecompWS.trans _ ((updSegs segs (k + 1)).getD j []) _ ?_
        (ih (updSegs segs (k + 1)) (by rw [updSegs_length]; omega))
      rw [updSegs_getD segs (k + 1) (by omega) hk j]
      simp only [Nat.add_sub_cancel]
      split_ifs with h1 h2
      · subst h1; exact DecompWS.of_strip _
      · subst h2; exact DecompWS.of_rstrip _
      · exact DecompWS.refl _

/- ===== abbreviate_title: top-level properties ===== -/

theorem abbreviate_title_noop (t : Str) (m : Nat) (h : t.length ≤ m) :
    abbreviate_title t m = t := by
  have hj : joinPipe (pySplitChar '|' t) = t := joinPipe_split t
  show joinPipe (abbrevGo m (pySplitChar '|' t) ((pySplitChar '|' t).length - 1)) = t
  cases hk : (pySplitChar '|' t).length - 1 with
  | zero => exact hj
  | succ k =>
    rw [abbrevGo, if_pos (by rw [hj]; exact h)]
    exact hj

theorem abbreviate_title_length_le (t : Str) (m : Nat) :
    (abbreviate_title t m).length ≤ t.length := by
  show (joinPipe (abbrevGo m (pySplitChar '|' t) ((pySplitChar '|' t).length - 1))).length ≤ _
  refine Nat.le_trans (abbrevGo_join_length_le m _ _) ?_
  rw [joinPipe_split]

theorem pySplitChar_abbreviate_title (t : Str) (m : Nat) :
    pySplitChar '|' (abbreviate_title t m) =
      abbrevGo m (pySplitChar '|' t) ((pySplitChar '|' t).length - 1) := by
  have hRlen : (abbrevGo m (pySplitChar '|' t) ((pySplitChar '|' t).length - 1)).length =
      (pySplitChar '|' t).length := abbrevGo_length _ _ _
  have hpos : 0 < (pySplitChar '|' t).length :=
    List.length_pos.2 (pySplitChar_ne_nil '|' t)
  have hRne : abbrevGo m (pySplitChar '|' t) ((pySplitChar '|' t).length - 1) ≠ [] := by
    intro hx
    rw [hx] at hRlen
    simp at hRlen
    omega
  exact pySplitChar_joinPipe _ hRne
    (abbrevGo_no_pipe m _ _ (pySplitChar_no_sep '|' t))

theorem abbreviate_title_idem (t : Str) (m : Nat) :
    abbreviate_title (abbreviate_title t m) m = abbreviate_title t m := by
  by_cases h : (abbreviate_title t m).length ≤ m
  · exact abbreviate_title_noop _ m h
  · have hpos : 0 < (pySplitChar '|' t).length :=
      List.length_pos.2 (pySplitChar_ne_nil '|' t)
    have hover : m <
        (joinPipe (abbrevGo m (pySplitChar '|' t) ((pySplitChar '|' t).length - 1))).length :=
      Nat.lt_of_not_le h
    have hfull : abbrevGo m (pySplitChar '|' t) ((pySplitChar '|' t).length - 1) =
        applyAllSegs (pySplitChar '|' t) ((pySplitChar '|' t).length - 1) :=
      abbrevGo_of_over m _ _ hover
    show joinPipe (abbrevGo m (pySplitChar '|' (abbreviate_title t m))
        ((pySplitChar '|' (abbreviate_title t m)).length - 1)) = abbreviate_title t m
    rw [pySplitChar_abbreviate_title t m, abbrevGo_length, hfull]
    rw [abbrevGo_fix m _ ((pySplitChar '|' t).length - 1)
      (fun i hi1 hik =>
        updSegs_fix (pySplitChar '|' t) ((pySplitChar '|' t).length - 1) (by omega) i hi1 hik)]
    show _ = joinPipe (abbrevGo m (pySplitChar '|' t) ((pySplitChar '|' t).length - 1))
    rw [hfull]

/-- Claim C9 (amended): abbreviate_title is a no-op when the title already fits,
never lengthens the title, is idempotent at a fixed limit, and never reorders or
drops segments or removes a delimiter: the result has exactly the same number of
'|'-separated segments, and each result segment arises from the corresponding
input segment by deleting only a whitespace prefix and a whitespace suffix.
(The original claim's stronger clause - that the removed whitespace is always
adjacent to a '|' - fails: stripping the final segment also removes whitespace
at the very end of the title, see the counterexample.) -/
theorem claim_C9_amended (t : Str) (m : Nat) :
    (t.length ≤ m → abbreviate_title t m = t) ∧
    (abbreviate_title t m).length ≤ t.length ∧
    abbreviate_title (abbreviate_title t m) m = abbreviate_title t m ∧
    (pySplitChar '|' (abbreviate_title t m)).length = (pySplitChar '|' t).length ∧
    ∀ j : Nat,
      DecompWS ((pySplitChar '|' t).getD j []) ((pySplitChar '|' (abbreviate_title t m)).getD j []) := by
  refine ⟨fun h => abbreviate_title_noop t m h, abbreviate_title_length_le t m,
    abbreviate_title_idem t m, ?_, ?_⟩
  · rw [pySplitChar_abbreviate_title, abbrevGo_length]
  · intro j
    rw [pySplitChar_abbreviate_title]
    refine abbrevGo_decompWS m _ _ ?_ j
    have hpos : 0 < (pySplitChar '|' t).length :=
      List.length_pos.2 (pySplitChar_ne_nil '|' t)
    omega

/-- Claim C9 counterexample: in "a | b " the only whitespace characters adjacent
to a '|' delimiter are the two spaces around the single '|'; if abbreviation
removed only those, the result would be one of the four listed strings.  The
actual result "a|b" is none of them: the trailing space - adjacent to no
delimiter - was removed as well (str.strip() of the last segment also trims the
end of the title). -/
theorem claim_C9_counterexample :
    abbreviate_title ("a | b ".toList) 5 = "a|b".toList ∧
    decide (abbreviate_title ("a | b ".toList) 5 ∈
      (["a | b ".toList, "a| b ".toList, "a |b ".toList, "a|b ".toList] : List Str)) = false := by
  decide

/-- Witness for claim C9: the no-op clause applied at a short title. -/
theorem claim_C9_witness :
    ("ab".toList : Str).length ≤ 5 ∧ abbreviate_title ("ab".toList) 5 = "ab".toList :=
  ⟨by decide, (claim_C9_amended ("ab".toList) 5).1 (by decide)⟩

/-- Claim C6 (amended): when the joined title plus newline exceeds
max_title_length + 1, soccer_game_description attempts abbreviation against the
DEFAULT limit 100 - not the caller-supplied limit - appends a newline, and
adopts the result exactly when it fits within max_title_length + 1; otherwise
the over-length title is emitted with a non-fatal warning.  In particular, for
any title of at most 100 characters that still exceeds the caller's limit, the
abbreviation attempt is a no-op and the over-length title is always kept. -/
theorem claim_C6_amended (game : Game) (fs : Str) (m : Nat) :
    (¬(m + 1 < (joinTitleSegs game fs).length) → titleOf game fs m = joinTitleSegs game fs) ∧
    (m + 1 < (joinTitleSegs game fs).length →
      titleOf game fs m =
        if m + 1 < (abbreviate_title (joinTitleSegs game fs) 100 ++ ['\n']).length
        then joinTitleSegs game fs
        else abbreviate_title (joinTitleSegs game fs) 100 ++ ['\n']) ∧
    (m + 1 < (joinTitleSegs game fs).length → (joinTitleSegs game fs).length ≤ 100 →
      titleOf game fs m = joinTitleSegs game fs) := by
  refine ⟨?_, ?_, ?_⟩
  · intro h
    simp [titleOf, h]
  · intro h
    simp only [titleOf, if_pos h]
  · intro h hle
    have hab : abbreviate_title (joinTitleSegs game fs) 100 = joinTitleSegs game fs :=
      abbreviate_title_noop _ _ hle
    simp only [titleOf, if_pos h, hab]
    rw [if_pos (by simp only [List.length_append, List.length_cons, List.length_nil]; omega)]

/-- Claim C6 counterexample: with max_title_length 15 the joined title
"a 0-0 b | def | ghi\n" (20 characters) exceeds 16, and abbreviating it against
the caller's limit 15 yields a title that fits within 16 - so the claim predicts
adoption of that abbreviation - yet the emitted description keeps the full
unabbreviated title, because the code abbreviates against the default limit 100
under which the title needs no abbreviation at all. -/
theorem claim_C6_counterexample :
    soccer_game_description
        ⟨"ghi".toList, "def".toList, "a".toList, "b".toList, none, none, none⟩
        (some []) 15
      = some ("a 0-0 b | def | ghi\n\nghi def\n\na 0-0 b\n".toList) ∧
    15 + 1 < ("a 0-0 b | def | ghi\n".toList : Str).length ∧
    (abbreviate_title ("a 0-0 b | def | ghi\n".toList) 15 ++ ['\n']).length ≤ 15 + 1 ∧
    decide (abbreviate_title ("a 0-0 b | def | ghi\n".toList) 15 ++ ['\n']
      = "a 0-0 b | def | ghi\n".toList) = false := by
  refine ⟨by decide, by decide, by decide, by decide⟩

/-- Witness for claim C6: the kept-over-length clause applied at the
counterexample's game. -/
theorem claim_C6_witness :
    (15 + 1 <
        (joinTitleSegs ⟨"ghi".toList, "def".toList, "a".toList, "b".toList, none, none, none⟩
          ("a 0-0 b".toList)).length ∧
      (joinTitleSegs ⟨"ghi".toList, "def".toList, "a".toList, "b".toList, none, none, none⟩
          ("a 0-0 b".toList)).length ≤ 100) ∧
    titleOf ⟨"ghi".toList, "def".toList, "a".toList, "b".toList, none, none, none⟩
        ("a 0-0 b".toList) 15 =
      joinTitleSegs ⟨"ghi".toList, "def".toList, "a".toList, "b".toList, none, none, none⟩
        ("a 0-0 b".toList) :=
  ⟨⟨by decide, by decide⟩,
   (claim_C6_amended ⟨"ghi".toList, "def".toList, "a".toList, "b".toList, none, none, none⟩
     ("a 0-0 b".toList) 15).2.2 (by decide) (by decide)⟩

/- ===== Claim C7: running scoreline ===== -/

/-- Number of goals in the list credited to the team key `t`. -/
def countTeam (t : Str) : List Goal → Nat
  | [] => 0
  | g :: gs => (if g.scoring_team = t then 1 else 0) + countTeam t gs

theorem goalsLoop_spec (sh sa : Str) (gs : List Goal) :
    ∀ h a descs H A, goalsLoop sh sa gs h a = some (descs, H, A) →
      H = h + countTeam strH gs ∧ A = a + countTeam strA gs ∧
      descs.length = gs.length ∧
      ∀ i, (hi : i < gs.length) →
        descs[i]? = renderGoalLine sh sa gs[i]
          (bracketScore (gs[i]).scoring_team
            (h + countTeam strH (gs.take (i + 1))) (a + countTeam strA (gs.take (i + 1)))) := by
  induction gs with
  | nil =>
    intro h a descs H A hloop
    simp only [goalsLoop, Option.some.injEq, Prod.mk.injEq] at hloop
    obtain ⟨hd, hH, hA⟩ := hloop
    subst hd; subst hH; subst hA
    refine ⟨by simp [countTeam], by simp [countTeam], rfl, ?_⟩
    intro i hi
    cases hi
  | cons g gs ih =>
    intro h a descs H A hloop
    by_cases hH : g.scoring_team = strH
    · have hAne : ¬g.scoring_team = strA := by rw [hH]; decide
      rw [goalsLoop, if_pos hH] at hloop
      cases hr : renderGoalLine sh sa g (bracketScore g.scoring_team (h + 1) a) with
      | none => rw [hr] at hloop; cases hloop
      | some line =>
        rw [hr] at hloop
        cases hl : goalsLoop sh sa gs (h + 1) a with
        | none => rw [hl] at hloop; cases hloop
        | some res =>
          obtain ⟨ls, H', A'⟩ := res
          rw [hl] at hloop
          simp only [Option.some.injEq, Prod.mk.injEq] at hloop
          obtain ⟨hd, hH', hA'⟩ := hloop
          subst hd; subst hH'; subst hA'
          obtain ⟨h1, h2, h3, h4⟩ := ih (h + 1) a ls H' A' hl
          refine ⟨?_, ?_, ?_, ?_⟩
          · rw [h1]
            simp only [countTeam, if_pos hH]
            omega
          · rw [h2]
            simp only [countTeam, if_neg hAne]
            omega
          · simp [h3]
          · intro i hi
            cases i with
            | zero =>
              simp only [List.getElem?_cons_zero, List.getElem_cons_zero,
                List.take_succ_cons, List.take_zero, countTeam, if_pos hH, if_neg hAne]
              rw [show h + (1 + 0) = h + 1 from by omega, show a + (0 + 0) = a from by omega]
              exact hr.symm
            | succ i =>
              have hi' : i < gs.length := by
                simp only [List.length_cons] at hi
                omega
              have h5 := h4 i hi'
              simp only [List.getElem?_cons_succ, List.getElem_cons_succ,
                List.take_succ_cons, countTeam, if_pos hH, if_neg hAne]
              rw [show h + (1 + countTeam strH (gs.take (i + 1))) =
                    h + 1 + countTeam strH (gs.take (i + 1)) from by omega,
                  show a + (0 + countTeam strA (gs.take (i + 1))) =
                    a + countTeam strA (gs.take (i + 1)) from by omega]
              exact h5
    · by_cases hA : g.scoring_team = strA
      · rw [goalsLoop, if_neg hH, if_pos hA] at hloop
        cases hr : renderGoalLine sh sa g (bracketScore g.scoring_team h (a + 1)) with
        | none => rw [hr] at hloop; cases hloop
        | some line =>
          rw [hr] at hloop
          cases hl : goalsLoop sh sa gs h (a + 1) with
          | none => rw [hl] at hloop; cases hloop
          | some res =>
            obtain ⟨ls, H', A'⟩ := res
            rw [hl] at hloop
            simp only [Option.some.injEq, Prod.mk.injEq] at hloop
            obtain ⟨hd, hH', hA'⟩ := hloop
            subst hd; subst hH'; subst hA'
            obtain ⟨h1, h2, h3, h4⟩ := ih h (a + 1) ls H' A' hl
            refine ⟨?_, ?_, ?_, ?_⟩
            · rw [h1]
              simp only [countTeam, if_neg hH]
              omega
            · rw [h2]
              simp only [countTeam, if_pos hA]
              omega
            · simp [h3]
            · intro i hi
              cases i with
              | zero =>
                simp only [List.getElem?_cons_zero, List.getElem_cons_zero,
                  List.take_succ_cons, List.take_zero, countTeam, if_pos hA, if_neg hH]
                rw [show h + (0 + 0) = h from by omega, show a + (1 + 0) = a + 1 from by omega]
                exact hr.symm
              | succ i =>
                have hi' : i < gs.length := by
                  simp only [List.length_cons] at hi
                  omega
                have h5 := h4 i hi'
                simp only [List.getElem?_cons_succ, List.getElem_cons_succ,
                  List.take_succ_cons, countTeam, if_pos hA, if_neg hH]
                rw [show h + (0 + countTeam strH (gs.take (i + 1))) =
                      h + countTeam strH (gs.take (i + 1)) from by omega,
                    show a + (1 + countTeam strA (gs.take (i + 1))) =
                      a + 1 + countTeam strA (gs.take (i + 1)) from by omega]
                exact h5
      · rw [goalsLoop, if_neg hH, if_neg hA] at hloop
        cases hloop

/-- Claim C7: whenever soccer_game_description produces a description, the i-th
goal line carries the bracketed running scoreline whose home (resp. away) total
is the number of "H" (resp. "A") goals among the first i+1 goals, with the
scoring side's total bracketed by bracketScore, and the final-scoreline line is
"<home_team> <H>-<A> <away_team>" with the totals over the whole list. -/
theorem claim_C7 (game : Game) (goals : List Goal) (m : Nat) (s : Str)
    (hs : soccer_game_description game (some goals) m = some s) :
    ∃ descs,
      goalsLoop (shortH game) (shortA game) goals 0 0 =
        some (descs, countTeam strH goals, countTeam strA goals) ∧
      descs.length = goals.length ∧
      (∀ i, (hi : i < goals.length) →
        descs[i]? = renderGoalLine (shortH game) (shortA game) goals[i]
          (bracketScore (goals[i]).scoring_team
            (countTeam strH (goals.take (i + 1))) (countTeam strA (goals.take (i + 1))))) ∧
      s = List.intercalate ['\n']
        ([titleOf game (finalScorelineStr game (countTeam strH goals) (countTeam strA goals)) m,
          subtitleOf game,
          finalScorelineStr game (countTeam strH goals) (countTeam strA goals) ++ ['\n']]
          ++ descs) := by
  simp only [soccer_game_description] at hs
  cases hloop : goalsLoop (shortH game) (shortA game) goals 0 0 with
  | none => rw [hloop] at hs; cases hs
  | some res =>
    obtain ⟨descs, H, A⟩ := res
    rw [hloop] at hs
    obtain ⟨h1, h2, h3, h4⟩ := goalsLoop_spec (shortH game) (shortA game) goals 0 0 descs H A hloop
    simp only [Nat.zero_add] at h1 h2
    subst h1; subst h2
    refine ⟨descs, rfl, h3, ?_, ?_⟩
    · intro i hi
      have := h4 i hi
      simpa using this
    · simp only [Option.some.injEq] at hs
      exact hs.symm

def wGame7 : Game := ⟨"dt".toList, "dv".toList, "X".toList, "Y".toList, none, none, none⟩

def wGoals7 : List Goal :=
  [⟨.str ("1:00".toList), strH, some (.str ("D".toList)), none, none⟩,
   ⟨.str ("2:00".toList), strA, some (.int 7), none, none⟩]

set_option maxRecDepth 4000 in
/-- Witness for claim C7 at a concrete two-goal game. -/
theorem claim_C7_witness :
    soccer_game_description wGame7 (some wGoals7) 100 =
      some ("X 1-1 Y | dv | dt\n\ndt dv\n\nX 1-1 Y\n\n1:00 X [1]-0 Y - D\n2:00 X 1-[1] Y - #7".toList) ∧
    ∃ descs,
      goalsLoop (shortH wGame7) (shortA wGame7) wGoals7 0 0 =
        some (descs, countTeam strH wGoals7, countTeam strA wGoals7) ∧
      descs.length = wGoals7.length ∧
      (∀ i, (hi : i < wGoals7.length) →
        descs[i]? = renderGoalLine (shortH wGame7) (shortA wGame7) wGoals7[i]
          (bracketScore (wGoals7[i]).scoring_team
            (countTeam strH (wGoals7.take (i + 1))) (countTeam strA (wGoals7.take (i + 1))))) ∧
      ("X 1-1 Y | dv | dt\n\ndt dv\n\nX 1-1 Y\n\n1:00 X [1]-0 Y - D\n2:00 X 1-[1] Y - #7".toList : Str)
        = List.intercalate ['\n']
          ([titleOf wGame7
              (finalScorelineStr wGame7 (countTeam strH wGoals7) (countTeam strA wGoals7)) 100,
            subtitleOf wGame7,
            finalScorelineStr wGame7 (countTeam strH wGoals7) (countTeam strA wGoals7) ++ ['\n']]
            ++ descs) :=
  ⟨by decide,
   claim_C7 wGame7 wGoals7 100
     ("X 1-1 Y | dv | dt\n\ndt dv\n\nX 1-1 Y\n\n1:00 X [1]-0 Y - D\n2:00 X 1-[1] Y - #7".toList)
     (by decide)⟩

/- ===== parse_team (video_desc_to_yaml.py line 46) =====
   re.split(r"\s\d{1,2}\s?:\s?\d{1,2}\s", scoreline) and the pair of the first
   two fragments.  The matcher is an explicit leftmost-greedy backtracking
   matcher for the pattern, one function per sub-pattern suffix. -/

/-- Final `\s` of the scoreline pattern. -/
def mFinSpace : Str → Option Str
  | [] => none
  | c :: r => if pyIsSpace c then some r else none

/-- `\d{1,2}\s` with greedy backtracking over the digit count. -/
def mNum2End : Str → Option Str
  | [] => none
  | [_] => none
  | a :: b :: r2 =>
    if a.isDigit then
      if b.isDigit then (mFinSpace r2).orElse (fun _ => mFinSpace (b :: r2))
      else mFinSpace (b :: r2)
    else none

/-- `\s?` (greedy) followed by the continuation `k`. -/
def mOptSpace (k : Str → Option Str) : Str → Option Str
  | [] => k []
  | c :: r => if pyIsSpace c then (k r).orElse (fun _ => k (c :: r)) else k (c :: r)

/-- `:\s?\d{1,2}\s`. -/
def mColonTail : Str → Option Str
  | [] => none
  | c :: r => if c = ':' then mOptSpace mNum2End r else none

/-- `\d{1,2}\s?:\s?\d{1,2}\s` with greedy backtracking over the digit count. -/
def mNum1Head : Str → Option Str
  | [] => none
  | [_] => none
  | a :: b :: r2 =>
    if a.isDigit then
      if b.isDigit then (mOptSpace mColonTail r2).orElse (fun _ => mOptSpace mColonTail (b :: r2))
      else mOptSpace mColonTail (b :: r2)
    else none

/-- The full pattern `\s\d{1,2}\s?:\s?\d{1,2}\s` anchored at the start. -/
def matchScoreAt : Str → Option Str
  | [] => none
  | c :: r => if pyIsSpace c then mNum1Head r else none

theorem mFinSpace_le (l r : Str) (h : mFinSpace l = some r) : r.length ≤ l.length := by
  cases l with
  | nil => cases h
  | cons c t =>
    by_cases hs : pyIsSpace c
    · simp only [mFinSpace, if_pos hs, Option.some.injEq] at h
      subst h
      simp
    · simp [mFinSpace, hs] at h

theorem orElse_eq_some (o : Option Str) (f : Unit → Option Str) (r : Str)
    (h : o.orElse f = some r) : o = some r ∨ (o = none ∧ f () = some r) := by
  cases o with
  | some x => left; simpa [Option.orElse] using h
  | none => right; exact ⟨rfl, by simpa [Option.orElse] using h⟩

theorem mNum2End_le (l r : Str) (h : mNum2End l = some r) : r.length ≤ l.length := by
  cases l with
  | nil => cases h
  | cons a t =>
    cases t with
    | nil => simp [mNum2End] at h
    | cons b r2 =>
      simp only [mNum2End] at h
      by_cases ha : a.isDigit = true
      · rw [if_pos ha] at h
        by_cases hb : b.isDigit = true
        · rw [if_pos hb] at h
          rcases orElse_eq_some _ _ _ h with h1 | ⟨_, h2⟩
          · have := mFinSpace_le r2 r h1
            simp only [List.length_cons]
            omega
          · have := mFinSpace_le (b :: r2) r h2
            simp only [List.length_cons] at this ⊢
            omega
        · rw [if_neg hb] at h
          have := mFinSpace_le (b :: r2) r h
          simp only [List.length_cons] at this ⊢
          omega
      · rw [if_neg ha] at h
        cases h

theorem mOptSpace_le (k : Str → Option Str) (hk : ∀ x y, k x = some y → y.length ≤ x.length)
    (l r : Str) (h : mOptSpace k l = some r) : r.length ≤ l.length := by
  cases l with
  | nil => exact hk [] r (by simpa [mOptSpace] using h)
  | cons c t =>
    by_cases hs : pyIsSpace c = true
    · simp only [mOptSpace, if_pos hs] at h
      rcases orElse_eq_some _ _ _ h with h1 | ⟨_, h2⟩
      · have := hk t r h1
        simp only [List.length_cons]
        omega
      · exact hk (c :: t) r h2
    · simp only [mOptSpace, if_neg hs] at h
      exact hk (c :: t) r h

theorem mColonTail_le (l r : Str) (h : mColonTail l = some r) : r.length ≤ l.length := by
  cases l with
  | nil => cases h
  | cons c t =>
    by_cases hc : c = ':'
    · simp only [mColonTail, if_pos hc] at h
      have := mOptSpace_le mNum2End mNum2End_le t r h
      simp only [List.length_cons]
      omega
    · simp only [mColonTail, if_neg hc] at h
      cases h

theorem mNum1Head_le (l r : Str) (h : mNum1Head l = some r) : r.length ≤ l.length := by
  cases l with
  | nil => cases h
  | cons a t =>
    cases t with
    | nil => simp [mNum1Head] at h
    | cons b r2 =>
      simp only [mNum1Head] at h
      by_cases ha : a.isDigit = true
      · rw [if_pos ha] at h
        by_cases hb : b.isDigit = true
        · rw [if_pos hb] at h
          rcases orElse_eq_some _ _ _ h with h1 | ⟨_, h2⟩
          · have := mOptSpace_le mColonTail mColonTail_le r2 r h1
            simp only [List.length_cons]
            omega
          · have := mOptSpace_le mColonTail mColonTail_le (b :: r2) r h2
            simp only [List.length_cons] at this ⊢
            omega
        · rw [if_neg hb] at h
          have := mOptSpace_le mColonTail mColonTail_le (b :: r2) r h
          simp only [List.length_cons] at this ⊢
          omega
      · rw [if_neg ha] at h
        cases h

theorem matchScoreAt_lt (l r : Str) (h : matchScoreAt l = some r) : r.length < l.length := by
  cases l with
  | nil => cases h
  | cons c t =>
    by_cases hs : pyIsSpace c = true
    · simp only [matchScoreAt, if_pos hs] at h
      have := mNum1Head_le t r h
      simp only [List.length_cons]
      omega
    · simp only [matchScoreAt, if_neg hs] at h
      cases h

/-- re.split for the scoreline pattern, with fuel (a match consumes at least
five characters, so `l.length + 1` fuel always suffices). -/
def reSplitScoreF : Nat → Str → List Str
  | 0, l => [l]
  | fuel + 1, l =>
    match matchScoreAt l with
    | some r => [] :: reSplitScoreF fuel r
    | none =>
      match l with
      | [] => [[]]
      | c :: rest =>
        match reSplitScoreF fuel rest with
        | s :: ss => (c :: s) :: ss
        | [] => [[c]]

/-- re.split(scoreline pattern, l). -/
def reSplitScore (l : Str) : List Str := reSplitScoreF (l.length + 1) l

/-- parse_team: the first two fragments of the split; `none` models the
IndexError raised when the pattern does not occur. -/
def parse_team (scoreline : Str) : Option (Str × Str) :=
  match reSplitScore scoreline with
  | t0 :: t1 :: _ => some (t0, t1)
  | _ => none

/-- A 1-2 digit number token. -/
def isNum12 (s : Str) : Bool :=
  match s with
  | [a] => a.isDigit
  | [a, b] => a.isDigit && b.isDigit
  | _ => false

theorem isNum12_elim (s : Str) (h : isNum12 s = true) :
    (∃ a, s = [a] ∧ a.isDigit = true) ∨
    (∃ a b, s = [a, b] ∧ a.isDigit = true ∧ b.isDigit = true) := by
  match s with
  | [] => cases h
  | [a] => exact Or.inl ⟨a, rfl, by simpa [isNum12] using h⟩
  | [a, b] =>
    have := h
    simp only [isNum12, Bool.and_eq_true] at this
    exact Or.inr ⟨a, b, rfl, this.1, this.2⟩
  | a :: b :: c :: t => simp [isNum12] at h

theorem mNum2End_sep (n2 away : Str) (h2 : isNum12 n2 = true) :
    mNum2End (n2 ++ ' ' :: away) = some away := by
  rcases isNum12_elim n2 h2 with ⟨a, rfl, ha⟩ | ⟨a, b, rfl, ha, hb⟩
  · show mNum2End (a :: ' ' :: away) = some away
    have hsd : (' ' : Char).isDigit = false := by decide
    simp [mNum2End, ha, hsd, mFinSpace, pyIsSpace]
  · show mNum2End (a :: b :: ' ' :: away) = some away
    simp [mNum2End, ha, hb, mFinSpace, pyIsSpace, Option.orElse]

theorem matchScoreAt_sep (n1 n2 away : Str) (h1 : isNum12 n1 = true) (h2 : isNum12 n2 = true) :
    matchScoreAt (' ' :: (n1 ++ ' ' :: ':' :: ' ' :: (n2 ++ ' ' :: away))) = some away := by
  have hsp : pyIsSpace ' ' = true := by decide
  have hsd : (' ' : Char).isDigit = false := by decide
  have htail : mOptSpace mColonTail (' ' :: ':' :: ' ' :: (n2 ++ ' ' :: away)) = some away := by
    simp [mOptSpace, hsp, mColonTail, mNum2End_sep n2 away h2, Option.orElse]
  rcases isNum12_elim n1 h1 with ⟨a, rfl, ha⟩ | ⟨a, b, rfl, ha, hb⟩
  · show matchScoreAt (' ' :: a :: ' ' :: ':' :: ' ' :: (n2 ++ ' ' :: away)) = some away
    simp only [matchScoreAt, if_pos hsp, mNum1Head, if_pos ha, hsd, Bool.false_eq_true,
      if_neg (by simp [hsd] : ¬(' ' : Char).isDigit = true)]
    exact htail
  · show matchScoreAt (' ' :: a :: b :: ' ' :: ':' :: ' ' :: (n2 ++ ' ' :: away)) = some away
    simp only [matchScoreAt, if_pos hsp, mNum1Head, if_pos ha, if_pos hb]
    rw [htail]
    rfl

theorem digit_ne_colon (a : Char) (h : a.isDigit = true) : ¬a = ':' := by
  intro he
  rw [he] at h
  exact absurd h (by decide)

/-- `\s?:` after a possible space never fires when neither of the first two
characters of the input is a colon. -/
theorem mOptSpace_mColonTail_none (t : Str)
    (h1 : ¬t.headD ' ' = ':') (h2 : ¬t.tail.headD ' ' = ':') :
    mOptSpace mColonTail t = none := by
  cases t with
  | nil => rfl
  | cons c r =>
    simp only [List.headD_cons] at h1
    have hcr : mColonTail (c :: r) = none := by simp [mColonTail, h1]
    by_cases hs : pyIsSpace c = true
    · have hr : mColonTail r = none := by
        cases r with
        | nil => rfl
        | cons d es =>
          simp only [List.tail_cons, List.headD_cons] at h2
          simp [mColonTail, h2]
      simp [mOptSpace, hs, hr, hcr, Option.orElse]
    · simp [mOptSpace, hs, hcr]

/-- The regex body `\d{1,2}\s?:\s?\d{1,2}\s` cannot match at a position inside
the home name: its colon would have to sit among the first few characters,
which are home-name characters (colon-free by hypothesis), the single
separator space, or the digits of the first number. -/
theorem mNum1Head_sep_none (home2 n1 rest : Str) (hh : ':' ∉ home2)
    (h1 : isNum12 n1 = true) :
    mNum1Head (home2 ++ ' ' :: (n1 ++ ' ' :: ':' :: rest)) = none := by
  have hn1head : ¬(n1 ++ ' ' :: ':' :: rest).headD ' ' = ':' := by
    rcases isNum12_elim n1 h1 with ⟨a, rfl, ha⟩ | ⟨a, b, rfl, ha, hb⟩
    · simpa using digit_ne_colon a ha
    · simpa using digit_ne_colon a ha
  cases home2 with
  | nil =>
    rcases isNum12_elim n1 h1 with ⟨a, rfl, ha⟩ | ⟨a, b, rfl, ha, hb⟩
    · simp [mNum1Head]
    · simp [mNum1Head]
  | cons x home3 =>
    by_cases hx : x.isDigit = true
    · cases home3 with
      | nil =>
        simp only [List.cons_append, List.nil_append, mNum1Head, if_pos hx,
          if_neg (by decide : ¬(' ' : Char).isDigit = true)]
        exact mOptSpace_mColonTail_none _ (by simp) (by simpa using hn1head)
      | cons y home4 =>
        have hy : ¬y = ':' := by
          intro he
          exact hh (by rw [← he]; exact List.mem_cons_of_mem _ (List.mem_cons_self _ _))
        have ht1 : ¬(home4 ++ ' ' :: (n1 ++ ' ' :: ':' :: rest)).headD ' ' = ':' := by
          cases home4 with
          | nil => simp
          | cons z home5 =>
            simp only [List.cons_append, List.headD_cons]
            intro he
            exact hh (by rw [← he]; exact List.mem_cons_of_mem _ (List.mem_cons_of_mem _ (List.mem_cons_self _ _)))
        have ht2 : ¬(home4 ++ ' ' :: (n1 ++ ' ' :: ':' :: rest)).tail.headD ' ' = ':' := by
          cases home4 with
          | nil => simpa using hn1head
          | cons z home5 =>
            cases home5 with
            | nil => simp
            | cons w home6 =>
              simp only [List.cons_append, List.tail_cons, List.headD_cons]
              intro he
              exact hh (by rw [← he]; exact List.mem_cons_of_mem _ (List.mem_cons_of_mem _ (List.mem_cons_of_mem _ (List.mem_cons_self _ _))))
        have hfall : mOptSpace mColonTail (y :: (home4 ++ ' ' :: (n1 ++ ' ' :: ':' :: rest)))
            = none :=
          mOptSpace_mColonTail_none _ (by simpa using hy) (by simpa using ht1)
        by_cases hyd : y.isDigit = true
        · simp only [List.cons_append, mNum1Head, if_pos hx, if_pos hyd]
          rw [mOptSpace_mColonTail_none _ ht1 ht2]
          simp [Option.orElse, hfall]
        · simp only [List.cons_append, mNum1Head, if_pos hx, if_neg hyd]
          exact hfall
    · cases hL : home3 ++ ' ' :: (n1 ++ ' ' :: ':' :: rest) with
      | nil => cases home3 <;> simp at hL
      | cons w ws =>
        simp only [List.cons_append, hL, mNum1Head, if_neg hx]

/-- The full pattern cannot match at a position inside the home name. -/
theorem matchScoreAt_inhome_none (c : Char) (home2 n1 rest : Str) (hh : ':' ∉ home2)
    (h1 : isNum12 n1 = true) :
    matchScoreAt (c :: (home2 ++ ' ' :: (n1 ++ ' ' :: ':' :: rest))) = none := by
  by_cases hs : pyIsSpace c = true
  · simp only [matchScoreAt, if_pos hs]
    exact mNum1Head_sep_none home2 n1 rest hh h1
  · simp [matchScoreAt, hs]

/-- The full pattern cannot match anywhere in a colon-free string. -/
theorem matchScoreAt_none_no_colon (l : Str) (h : ':' ∉ l) : matchScoreAt l = none := by
  cases l with
  | nil => rfl
  | cons c r =>
    by_cases hs : pyIsSpace c = true
    · simp only [matchScoreAt, if_pos hs]
      cases r with
      | nil => rfl
      | cons a t =>
        cases t with
        | nil => simp [mNum1Head]
        | cons b r2 =>
          have hb : ¬b = ':' := by
            intro he
            exact h (by rw [← he]; exact List.mem_cons_of_mem _ (List.mem_cons_of_mem _ (List.mem_cons_self _ _)))
          have hr2h : ¬r2.headD ' ' = ':' := by
            cases r2 with
            | nil => simp
            | cons d ds =>
              simp only [List.headD_cons]
              intro he
              exact h (by rw [← he]; exact List.mem_cons_of_mem _ (List.mem_cons_of_mem _ (List.mem_cons_of_mem _ (List.mem_cons_self _ _))))
          have hr2t : ¬r2.tail.headD ' ' = ':' := by
            cases r2 with
            | nil => simp
            | cons d ds =>
              cases ds with
              | nil => simp
              | cons e es =>
                simp only [List.tail_cons, List.headD_cons]
                intro he
                exact h (by rw [← he]; exact List.mem_cons_of_mem _ (List.mem_cons_of_mem _ (List.mem_cons_of_mem _ (List.mem_cons_of_mem _ (List.mem_cons_self _ _)))))
          have hfall : mOptSpace mColonTail (b :: r2) = none :=
            mOptSpace_mColonTail_none _ (by simpa using hb) (by simpa using hr2h)
          by_cases ha : a.isDigit = true
          · by_cases hbd : b.isDigit = true
            · simp only [mNum1Head, if_pos ha, if_pos hbd]
              rw [mOptSpace_mColonTail_none r2 hr2h hr2t]
              simp [Option.orElse, hfall]
            · simp only [mNum1Head, if_pos ha, if_neg hbd]
              exact hfall
          · simp [mNum1Head, ha]
    · simp [matchScoreAt, hs]

theorem reSplitScoreF_succ_some (fuel : Nat) (l r : Str) (h : matchScoreAt l = some r) :
    reSplitScoreF (fuel + 1) l = [] :: reSplitScoreF fuel r := by
  simp [reSplitScoreF, h]

theorem reSplitScoreF_succ_none_cons (fuel : Nat) (c : Char) (rest : Str)
    (h : matchScoreAt (c :: rest) = none) :
    reSplitScoreF (fuel + 1) (c :: rest) =
      match reSplitScoreF fuel rest with
      | s :: ss => (c :: s) :: ss
      | [] => [[c]] := by
  simp [reSplitScoreF, h]

theorem reSplitScoreF_no_colon (fuel : Nat) (l : Str) (hf : l.length < fuel)
    (h : ':' ∉ l) : reSplitScoreF fuel l = [l] := by
  induction fuel generalizing l with
  | zero => omega
  | succ fuel ih =>
    cases l with
    | nil => rfl
    | cons c rest =>
      have hm : matchScoreAt (c :: rest) = none := matchScoreAt_none_no_colon (c :: rest) h
      rw [reSplitScoreF_succ_none_cons fuel c rest hm,
        ih rest (by simp only [List.length_cons] at hf; omega)
          (fun hdm => h (List.mem_cons_of_mem _ hdm))]

theorem reSplitScoreF_main (away n1 n2 : Str) (h1 : isNum12 n1 = true) (h2 : isNum12 n2 = true)
    (hA : ':' ∉ away) :
    ∀ (home : Str) (fuel : Nat),
      home.length + away.length + 4 < fuel →
      ':' ∉ home →
      reSplitScoreF fuel (home ++ ' ' :: (n1 ++ ' ' :: ':' :: ' ' :: (n2 ++ ' ' :: away)))
        = [home, away] := by
  intro home
  induction home with
  | nil =>
    intro fuel hf hH
    cases fuel with
    | zero => omega
    | succ fuel =>
      rw [List.nil_append,
        reSplitScoreF_succ_some fuel _ away (matchScoreAt_sep n1 n2 away h1 h2),
        reSplitScoreF_no_colon fuel away (by simp only [List.length_nil] at hf; omega) hA]
  | cons c home ih =>
    intro fuel hf hH
    cases fuel with
    | zero => omega
    | succ fuel =>
      have hH2 : ':' ∉ home := fun hm => hH (List.mem_cons_of_mem _ hm)
      have hm : matchScoreAt
          (c :: (home ++ ' ' :: (n1 ++ ' ' :: ':' :: ' ' :: (n2 ++ ' ' :: away)))) = none :=
        matchScoreAt_inhome_none c home n1 (' ' :: (n2 ++ ' ' :: away)) hH2 h1
      rw [List.cons_append, reSplitScoreF_succ_none_cons fuel c _ hm,
        ih fuel (by simp only [List.length_cons] at hf; omega) hH2]

/-- Claim C1 (amended): for every scoreline of the colon form
"<home> N1 : N2 <away>" (1-2 digit numbers, single surrounding spaces), with
team names free of the colon character - they may contain digits, embedded
age/noise suffixes and anything else - parse_team succeeds and returns the two
remainders verbatim as home_team and away_team.  The hyphen form
"<home> NN-NN <away>" is NOT supported by the regex (which requires a colon)
and raises IndexError - see the counterexample theorem. -/
theorem claim_C1_amended (home away n1 n2 : Str)
    (hH : ':' ∉ home) (hA : ':' ∉ away)
    (h1 : isNum12 n1 = true) (h2 : isNum12 n2 = true) :
    parse_team (home ++ ' ' :: (n1 ++ ' ' :: ':' :: ' ' :: (n2 ++ ' ' :: away)))
      = some (home, away) := by
  unfold parse_team reSplitScore
  rw [reSplitScoreF_main away n1 n2 h1 h2 hA home _ (by simp; omega) hH]

/-- Claim C1 counterexample: the hyphen scoreline form, which the claim says
parse_team handles, finds no occurrence of the colon-based pattern, so the
split returns a single fragment and the subscript raises IndexError (modelled
as `none`). -/
theorem claim_C1_counterexample : parse_team ("A 2-4 B".toList) = none := by decide

/-- Witness for claim C1 at team names carrying embedded age/noise suffixes,
which are returned verbatim. -/
theorem claim_C1_witness :
    ("Palo Alto SC 12B Gold".toList ++ ' ' ::
        ("2".toList ++ ' ' :: ':' :: ' ' :: ("4".toList ++ ' ' :: "ECFC 13B".toList)))
      = "Palo Alto SC 12B Gold 2 : 4 ECFC 13B".toList ∧
    parse_team ("Palo Alto SC 12B Gold".toList ++ ' ' ::
        ("2".toList ++ ' ' :: ':' :: ' ' :: ("4".toList ++ ' ' :: "ECFC 13B".toList)))
      = some ("Palo Alto SC 12B Gold".toList, "ECFC 13B".toList) :=
  ⟨by decide,
   claim_C1_amended ("Palo Alto SC 12B Gold".toList) ("ECFC 13B".toList)
     ("2".toList) ("4".toList) (by decide) (by decide) (by decide) (by decide)⟩

/- ===== parse_goal (video_desc_to_yaml.py line 60) and difflib ===== -/

/-- The Python exceptions parse_goal can raise. -/
inductive PyErr where
  | valueErrorUnpack
  | indexError
  | valueErrorInt
  | unresolvedTeam (msg : Str)
deriving DecidableEq

/-- Does `s` start with `pat`? -/
def startsWithL : Str → Str → Bool
  | [], _ => true
  | _ :: _, [] => false
  | p :: ps, c :: cs => p == c && startsWithL ps cs

/-- str.split(pat, 1) for a non-empty pattern: the fragments around the first
occurrence, `none` when the pattern does not occur (so tuple unpacking fails). -/
def splitOnceSub (pat : Str) : Str → Option (Str × Str)
  | [] => if startsWithL pat [] then some ([], []) else none
  | c :: rest =>
    if startsWithL pat (c :: rest) then some ([], (c :: rest).drop pat.length)
    else (splitOnceSub pat rest).map (fun p => (c :: p.1, p.2))

/-- Python `pat in s`. -/
def hasSub (pat s : Str) : Bool := (splitOnceSub pat s).isSome

/-- Match of `\)\s?:` anchored at the start of `l`. -/
def matchParenColonAt : Str → Option Str
  | [] => none
  | [_] => none
  | a :: b :: r2 =>
    if a = ')' then
      if pyIsSpace b then
        (match r2 with
         | c :: r3 => if c = ':' then some r3 else none
         | [] => none)
      else if b = ':' then some r2 else none
    else none

/-- re.split for `\)\s?:`, with fuel (a match consumes at least two
characters, so `l.length + 1` fuel always suffices). -/
def reSplitPCf : Nat → Str → List Str
  | 0, l => [l]
  | fuel + 1, l =>
    match matchParenColonAt l with
    | some r => [] :: reSplitPCf fuel r
    | none =>
      match l with
      | [] => [[]]
      | c :: rest =>
        match reSplitPCf fuel rest with
        | s :: ss => (c :: s) :: ss
        | [] => [[c]]

/-- re.split(r"\)\s?:", l). -/
def reSplitParenColon (l : Str) : List Str := reSplitPCf (l.length + 1) l

/-- Decimal value of a digit string. -/
def digitsVal : Str → Nat → Nat
  | [], acc => acc
  | c :: r, acc => digitsVal r (acc * 10 + (c.toNat - 48))

/-- Python int(s) for the jersey-number strings parse_goal feeds it: strips
whitespace, then requires a non-empty all-digit string (signs are not modelled;
parse_goal only reaches this after a "#"). -/
def pyInt (s : Str) : Option Nat :=
  let t := pyStrip s
  if t.isEmpty then none
  else if t.all Char.isDigit then some (digitsVal t 0) else none

/-- Python str.rstrip(")"). -/
def rstripParen (s : Str) : Str := (s.reverse.dropWhile (fun c => c == ')')).reverse

/-- A scorer/assist token: "#<digits>" becomes a jersey number (int(...) raises
on non-digits), anything else stays a literal string. -/
def hashConvert (s : Str) : Except PyErr SP :=
  match s with
  | '#' :: rest =>
    match pyInt rest with
    | some n => .ok (.int n)
    | none => .error .valueErrorInt
  | _ => .ok (.str s)

/- difflib.SequenceMatcher.find_longest_match without the junk heuristic:
autojunk only activates for sequences of 200+ elements and the b2j junk sets
are empty below that, in which case the two extension loops after the dynamic
program are no-ops; the strings compared here are team-name tokens far below
that bound. -/

/-- Inner loop of find_longest_match over j in [blo, bhi): the j2len dynamic
program, keeping the longest (earliest in a, then in b) diagonal run. -/
def flmInner (ach : Char) (b : Str) (i : Nat) (j2len : Nat → Nat) :
    Nat → Nat → (Nat → Nat) → (Nat × Nat × Nat) → ((Nat → Nat) × (Nat × Nat × Nat))
  | 0, _, nj, best => (nj, best)
  | steps + 1, j, nj, best =>
    if b.getD j ' ' = ach then
      let k := (if j = 0 then 0 else j2len (j - 1)) + 1
      let nj2 : Nat → Nat := fun x => if x = j then k else nj x
      let best2 := if k > best.2.2 then (i + 1 - k, j + 1 - k, k) else best
      flmInner ach b i j2len steps (j + 1) nj2 best2
    else flmInner ach b i j2len steps (j + 1) nj best

/-- Outer loop of find_longest_match over i in [alo, ahi). -/
def flmOuter (a b : Str) (blo bhi : Nat) :
    Nat → Nat → (Nat → Nat) → (Nat × Nat × Nat) → Nat × Nat × Nat
  | 0, _, _, best => best
  | steps + 1, i, j2len, best =>
    let r := flmInner (a.getD i ' ') b i j2len (bhi - blo) blo (fun _ => 0) best
    flmOuter a b blo bhi steps (i + 1) r.1 r.2

/-- find_longest_match(a[alo:ahi], b[blo:bhi]) as (besti, bestj, bestsize). -/
def find_longest_match (a b : Str) (alo ahi blo bhi : Nat) : Nat × Nat × Nat :=
  flmOuter a b blo bhi (ahi - alo) alo (fun _ => 0) (alo, blo, 0)

/-- Total size of all matching blocks (the recursion of get_matching_blocks);
each level shrinks the a-range, so `a.length + b.length + 1` fuel suffices. -/
def mbSumF (a b : Str) : Nat → Nat → Nat → Nat → Nat → Nat
  | 0, _, _, _, _ => 0
  | fuel + 1, alo, ahi, blo, bhi =>
    let r := find_longest_match a b alo ahi blo bhi
    if r.2.2 = 0 then 0
    else
      mbSumF a b fuel alo r.1 blo r.2.1 + r.2.2 +
        mbSumF a b fuel (r.1 + r.2.2) ahi (r.2.1 + r.2.2) bhi

/-- The matched total M of SequenceMatcher(a, b). -/
def mbTotal (a b : Str) : Nat := mbSumF a b (a.length + b.length + 1) 0 a.length 0 b.length

/- SequenceMatcher.ratio() = 2*M / (len(a)+len(b)), or 1.0 for two empty
sequences.  The cutoff test ratio >= 0.25 and the ratio comparisons are done as
exact rational comparisons: for the short token/team strings involved the float
arithmetic of the original is exact enough that the order never differs.
real_quick_ratio and quick_ratio are documented upper bounds of ratio, so the
three-stage cutoff chain of get_close_matches accepts exactly when
ratio >= cutoff. -/

/-- ratio(x, word) >= 0.25. -/
def ratioPassQuarter (x w : Str) : Bool :=
  decide (x.length + w.length = 0) || decide (x.length + w.length ≤ 8 * mbTotal x w)

/-- Numerator of ratio(x, w) als exact rational. -/
def ratioNum (x w : Str) : Nat := if x.length + w.length = 0 then 1 else 2 * mbTotal x w

/-- Denominator of ratio(x, w). -/
def ratioDen (x w : Str) : Nat := if x.length + w.length = 0 then 1 else x.length + w.length

/-- Python string `<` (code-point lexicographic). -/
def lexLt : Str → Str → Bool
  | [], [] => false
  | [], _ :: _ => true
  | _ :: _, [] => false
  | a :: as2, b :: bs => if a = b then lexLt as2 bs else decide (a.toNat < b.toNat)

/-- get_close_matches(word, [h, a], n=1, cutoff=0.25): the single best scorer
among the candidates passing the cutoff, `none` when neither passes.  With two
candidates, nlargest picks the second exactly when its (ratio, string) tuple is
strictly greater. -/
def get_close_matches1 (word h a : Str) : Option Str :=
  match ratioPassQuarter h word, ratioPassQuarter a word with
  | false, false => none
  | true, false => some h
  | false, true => some a
  | true, true =>
    let c1 := decide (ratioNum h word * ratioDen a word < ratioNum a word * ratioDen h word)
    let c2 := decide (ratioNum a word * ratioDen h word = ratioNum h word * ratioDen a word)
      && lexLt h a
    if c1 || c2 then some a else some h

/-- The " - " separator. -/
def strSepDash : Str := " - ".toList

/-- The "assist from" membership probe. -/
def strAssistFrom : Str := "assist from".toList

/-- The " (assist from " split pattern. -/
def strParenAssistFrom : Str := " (assist from ".toList

/-- parse_goal(string, home_team, away_team): the Goal parsed from one goal
line, or the first Python exception on the way. -/
def parse_goal (s home away : Str) : Except PyErr Goal :=
  match splitOnceSub [' '] s with
  | none => .error .valueErrorUnpack
  | some (timestamp, rest0) =>
    match splitOnceSub strSepDash rest0 with
    | none => .error .valueErrorUnpack
    | some (team0, rest1) =>
      match
        (if hasSub strAssistFrom rest1 then
          match splitOnceSub strParenAssistFrom rest1 with
          | none => Except.error PyErr.valueErrorUnpack
          | some (sp, rest2) =>
            match reSplitParenColon rest2 with
            | [ap, r3] => Except.ok (sp, some ap, r3)
            | _ => Except.error PyErr.valueErrorUnpack
        else Except.ok (pyStrip ((pySplitChar ':' rest1).headD []), none, rest1)) with
      | .error e => .error e
      | .ok (sp, apOpt, rest) =>
        let apOpt2 :=
          if hasSub strParenAssistFrom rest then
            match splitOnceSub strParenAssistFrom rest with
            | some (ap2, _) => some (rstripParen (pyStrip ap2))
            | none => apOpt
          else apOpt
        match get_close_matches1 team0 home away with
        | none => .error .indexError
        | some t =>
          match
            (if t = home then Except.ok strH
             else if t = away then Except.ok strA
             else Except.error (PyErr.unresolvedTeam
               ("scoring_team=".toList ++ t ++
                " is not one of the game teams: home_team=".toList ++ home ++
                ", away_team=".toList ++ away ++ ".".toList))) with
          | .error e => .error e
          | .ok st =>
            match hashConvert sp with
            | .error e => .error e
            | .ok spv =>
              match
                (match apOpt2 with
                 | none => Except.ok none
                 | some apS => (hashConvert apS).map some) with
              | .error e => .error e
              | .ok apv => .ok ⟨.str timestamp, st, some spv, apv, none⟩

instance (ε α : Type) [DecidableEq ε] [DecidableEq α] : DecidableEq (Except ε α) := fun x y =>
  match x, y with
  | .ok a, .ok b =>
    if h : a = b then isTrue (by rw [h]) else isFalse (by intro hx; cases hx; exact h rfl)
  | .error a, .error b =>
    if h : a = b then isTrue (by rw [h]) else isFalse (by intro hx; cases hx; exact h rfl)
  | .ok _, .error _ => isFalse (by intro hx; cases hx)
  | .error _, .ok _ => isFalse (by intro hx; cases hx)

example : get_close_matches1 ("Surf".toList) ("Bay Area Surf".toList) ("ECFC".toList)
    = some ("Bay Area Surf".toList) := by decide
example : parse_goal ("4:11 ECFC - #8: 0-1".toList) ("Bay Area Surf".toList) ("ECFC".toList)
    = .ok ⟨.str ("4:11".toList), strA, some (.int 8), none, none⟩ := by decide
example : parse_goal ("10:31 Surf - Jamie (assist from Alex): 2-4".toList)
    ("Bay Area Surf".toList) ("ECFC".toList)
    = .ok ⟨.str ("10:31".toList), strH, some (.str ("Jamie".toList)),
        some (.str ("Alex".toList)), none⟩ := by decide

theorem splitOnceSub_space_append (ts rest : Str) (hts : ' ' ∉ ts) :
    splitOnceSub [' '] (ts ++ ' ' :: rest) = some (ts, rest) := by
  induction ts with
  | nil => simp [splitOnceSub, startsWithL]
  | cons c ts ih =>
    have hts2 : ' ' ∉ ts := fun hm => hts (List.mem_cons_of_mem _ hm)
    have hceq : ¬(' ' = c) := fun h => hts (by rw [h]; exact List.mem_cons_self _ _)
    have hsw : startsWithL [' '] (c :: (ts ++ ' ' :: rest)) = false := by
      simp [startsWithL, hceq]
    simp [splitOnceSub, hsw, ih hts2]

/-- Claim C5 (amended): a goal line whose remainder after the timestamp
contains no " - " separator makes parse_goal raise a ValueError (the 1-element
result of rest.split(" - ", 1) cannot be unpacked into two variables); the
":"-fallback split and the placeholder unknown-scorer marker the original claim
describes do not exist in the code. -/
theorem claim_C5_amended (ts rest home away : Str) (hts : ' ' ∉ ts)
    (hno : hasSub strSepDash rest = false) :
    parse_goal (ts ++ ' ' :: rest) home away = .error .valueErrorUnpack := by
  have h1 := splitOnceSub_space_append ts rest hts
  have h2 : splitOnceSub strSepDash rest = none := by
    cases hx : splitOnceSub strSepDash rest with
    | none => rfl
    | some p =>
      unfold hasSub at hno
      rw [hx] at hno
      cases hno
  simp only [parse_goal, h1, h2]

/-- Claim C5 counterexample: on the terse goal line "10:01 Surf: 1-4" the claim
predicts a successful parse with a placeholder scorer; the code instead raises
ValueError at the " - " unpacking, producing no Goal at all. -/
theorem claim_C5_counterexample :
    parse_goal ("10:01 Surf: 1-4".toList) ("Bay Area Surf".toList) ("ECFC".toList)
      = .error .valueErrorUnpack := by decide

/-- Witness for claim C5. -/
theorem claim_C5_witness :
    (' ' ∉ ("10:01".toList : Str)) ∧ hasSub strSepDash ("Surf: 1-4".toList) = false ∧
    parse_goal ("10:01".toList ++ ' ' :: "Surf: 1-4".toList)
        ("Bay Area Surf".toList) ("ECFC".toList) = .error .valueErrorUnpack :=
  ⟨by decide, by decide,
   claim_C5_amended ("10:01".toList) ("Surf: 1-4".toList)
     ("Bay Area Surf".toList) ("ECFC".toList) (by decide) (by decide)⟩

/-- Claim C4 (code bug): a goal line whose team token "Qq" shares no characters
with either team fails fuzzy matching, so get_close_matches returns an empty
list and indexing it with [0] raises a bare IndexError ("list index out of
range") that names neither candidate - the ValueError branch that would name
both teams is unreachable, because get_close_matches only ever returns one of
the candidates. -/
theorem claim_C4_code_eval :
    parse_goal ("1:23 Qq - Zz: 1-0".toList) ("Ab".toList) ("Cd".toList)
      = .error .indexError ∧
    get_close_matches1 ("Qq".toList) ("Ab".toList) ("Cd".toList) = none := by decide
